import Mathlib

/-!
Verification of the backup/restore core of Linux-Onion-Desktop-Tools
(`lib/backup_restore.py`).

The filesystem is modelled shallowly: an `FS` records the set of existing
directories (`dirs`, closed under creation by `mkdirP`), the regular files
as an association list from path to content (`files`), and two failure
oracles: paths whose `read_text` raises `OSError` (`unreadable`) and paths
whose `write_text` raises `OSError` (`unwritable`).  Paths are lists of
components relative to the filesystem root.  Directory creation and file
copying are modelled as always succeeding; the claims under study quantify
over runs in which the copy phase completes.

File contents are either raw bytes or a parsed `backup_info.json` sidecar
(`FileData.sidecar`); writing the sidecar with `json.dumps` and parsing it
back with `json.loads` is modelled by storing the structured metadata
directly, so that a `bytes` payload is exactly a file that fails
`json.loads`.

`datetime.now()` is modelled by passing the two formatted timestamp
strings (`strftime` form and `isoformat` form) as explicit parameters.
-/

set_option autoImplicit false

namespace Onion

/-- A filesystem path: the list of name components below the root. -/
abbrev FsPath := List String

/-- Render a path the way `str(Path(...))` renders a relative path. -/
def pathToString (p : FsPath) : String := String.intercalate "/" p

/-- `underB root p` holds when `p` lies strictly below the directory `root`
(the test used by `Path.rglob` enumeration in the model). -/
def underB (root p : FsPath) : Bool := root.isPrefixOf p && root != p

/-- Metadata stored in `backup_info.json` by `create_backup`. -/
structure BackupMetadata where
  date : String
  categories : List String
  description : String
  state : String
  version : String
  total_files : Nat
deriving DecidableEq, Repr

/-- Content of a regular file: raw bytes, or a parsed sidecar document
(the image of `json.dumps` on a metadata record). -/
inductive FileData where
  | bytes (s : String)
  | sidecar (m : BackupMetadata)
deriving DecidableEq, Repr

/-- A crude JSON rendering of the sidecar, used only when a sidecar file is
read back as plain text. -/
def sidecarJson (m : BackupMetadata) : String :=
  "\x7b \"date\": \"" ++ m.date ++ "\", \"description\": \"" ++ m.description ++
    "\", \"state\": \"" ++ m.state ++ "\", \"version\": \"" ++ m.version ++
    "\", \"total_files\": " ++ toString m.total_files ++ " \x7d"

/-- The text obtained by `read_text` on a file. -/
def FileData.text : FileData → String
  | FileData.bytes s => s
  | FileData.sidecar m => sidecarJson m

/-- The filesystem state. -/
structure FS where
  files : List (FsPath × FileData)
  dirs : List FsPath
  unreadable : List FsPath
  unwritable : List FsPath
deriving DecidableEq, Repr

/-- `Path.is_dir`. -/
def FS.isDir (fs : FS) (p : FsPath) : Bool := fs.dirs.contains p

/-- `Path.is_file`. -/
def FS.isFile (fs : FS) (p : FsPath) : Bool := fs.files.any (fun f => f.1 == p)

/-- The content of the regular file at `p`, if any. -/
def FS.findFile (fs : FS) (p : FsPath) : Option FileData :=
  (fs.files.find? (fun f => f.1 == p)).map (fun f => f.2)

/-- `Path.read_text`, `none` when the file is missing or reading raises
`OSError`. -/
def FS.readData (fs : FS) (p : FsPath) : Option FileData :=
  if fs.unreadable.contains p then none else fs.findFile p

/-- `p.mkdir(parents=True, exist_ok=True)`: create `p` and every missing
ancestor. -/
def FS.mkdirP (fs : FS) (p : FsPath) : FS :=
  { fs with dirs := fs.dirs ++ p.inits.filter (fun q => !fs.dirs.contains q) }

/-- Write (or overwrite) the regular file at `p` — the effect of
`shutil.copy2` / `Path.write_text` on the name space. -/
def setFile (files : List (FsPath × FileData)) (p : FsPath) (d : FileData) :
    List (FsPath × FileData) :=
  if files.any (fun f => f.1 == p) then
    files.map (fun f => if f.1 == p then (p, d) else f)
  else
    files ++ [(p, d)]

/-- One progress-callback invocation:
`(category, current_file, files_done, total_files)`. -/
structure ProgressEvent where
  category : String
  current_file : String
  files_done : Nat
  total_files : Nat
deriving DecidableEq, Repr

/-- A backup category: human label and fixed relative path (the entries of
`BACKUP_CATEGORIES`). -/
structure Category where
  label : String
  path : FsPath
deriving DecidableEq, Repr

/-- The static category table of `backup_restore.py`. -/
def BACKUP_CATEGORIES : List (String × Category) :=
  [("roms", ⟨"ROMs", ["Roms"]⟩),
   ("imgs", ⟨"Images (box art)", ["Imgs"]⟩),
   ("saves", ⟨"Saves", ["Saves"]⟩),
   ("ra_config", ⟨"RetroArch config", ["RetroArch", ".retroarch"]⟩),
   ("bios", ⟨"BIOS", ["BIOS"]⟩),
   ("onion_config", ⟨"Onion config", [".tmp_update", "config"]⟩)]

/-- `c in BACKUP_CATEGORIES`. -/
def isValidCategory (c : String) : Bool :=
  BACKUP_CATEGORIES.any (fun kv => kv.1 == c)

/-- `BACKUP_CATEGORIES[c]["path"]` (''`[]`'' for unknown keys, which every
caller rules out first). -/
def catPath (c : String) : FsPath :=
  match BACKUP_CATEGORIES.find? (fun kv => kv.1 == c) with
  | some kv => kv.2.path
  | none => []

/-- `_detect_sd_state`. -/
def detect_sd_state (fs : FS) (sdMount : FsPath) : String :=
  if fs.isDir (sdMount ++ [".tmp_update"]) then "onion"
  else if fs.isDir (sdMount ++ ["miyoo", "app"]) || fs.isDir (sdMount ++ ["miyoo"]) then "stock"
  else "unknown"

/-- The candidate version-file locations probed by `_detect_onion_version`. -/
def versionCandidates (sdMount : FsPath) : List FsPath :=
  [sdMount ++ [".tmp_update", "onionVersion", "version.txt"],
   sdMount ++ [".tmp_update", "config", "version.txt"],
   sdMount ++ [".tmp_update", "version.txt"]]

/-- The candidate loop of `_detect_onion_version`: skip candidates that are
not files, raise `OSError` on reading, or hold only whitespace; return the
first stripped non-empty content. -/
def versionFrom (fs : FS) : List FsPath → String
  | [] => ""
  | c :: rest =>
    if fs.isFile c then
      match fs.readData c with
      | none => versionFrom fs rest
      | some d =>
        if d.text.trim ≠ "" then d.text.trim else versionFrom fs rest
    else versionFrom fs rest

/-- `_detect_onion_version`. -/
def detect_onion_version (fs : FS) (sdMount : FsPath) : String :=
  versionFrom fs (versionCandidates sdMount)

/-- `count_files`: number of regular files strictly below `directory`, `0`
when it is not a directory. -/
def count_files (fs : FS) (directory : FsPath) : Nat :=
  if fs.isDir directory then
    (fs.files.filter (fun f => underB directory f.1)).length
  else 0

/-- The files strictly below `src`, keyed by their path relative to `src`
(the material of `src.rglob("*")` restricted to regular files). -/
def relFilesUnder (fs : FS) (src : FsPath) : List (FsPath × FileData) :=
  (fs.files.filter (fun f => underB src f.1)).map
    (fun f => (f.1.drop src.length, f.2))

/-- Component-wise lexicographic comparison of paths, the deterministic
order in which `sorted(src.rglob("*"))` is modelled to visit files. -/
def pathLeB : FsPath → FsPath → Bool
  | [], _ => true
  | _ :: _, [] => false
  | a :: as, b :: bs => if a < b then true else if a == b then pathLeB as bs else false

/-- `sorted(src.rglob("*"))`, restricted to regular files and made relative
to `src`. -/
def sortedRelFiles (fs : FS) (src : FsPath) : List (FsPath × FileData) :=
  @List.insertionSort _ (fun a b => pathLeB a.1 b.1 = true)
    (fun a b => instDecidableEqBool (pathLeB a.1 b.1) true) (relFilesUnder fs src)

/-- Result of one tree copy: new filesystem, number of files copied by this
call, and the progress events emitted. -/
structure CopyOut where
  fs : FS
  copied : Nat
  events : List ProgressEvent
deriving DecidableEq, Repr

/-- The per-file loop of `copy_tree_with_progress`: create the parent
directory, copy the file, bump the counter, emit a progress event. -/
def copyFiles (dst : FsPath) (cat : String) (total : Nat) :
    FS → Nat → List (FsPath × FileData) → CopyOut
  | fs, _, [] => ⟨fs, 0, []⟩
  | fs, filesDone, (rel, d) :: rest =>
    let fs1 := fs.mkdirP (dst ++ rel.dropLast)
    let fs2 : FS := { fs1 with files := setFile fs1.files (dst ++ rel) d }
    let out := copyFiles dst cat total fs2 (filesDone + 1) rest
    ⟨out.fs, out.copied + 1,
      ⟨cat, pathToString rel, filesDone + 1, total⟩ :: out.events⟩

/-- `copy_tree_with_progress`: no-op returning `0` when `src` is not a
directory, otherwise create `dst` and copy every regular file below `src`. -/
def copy_tree_with_progress (fs : FS) (src dst : FsPath) (cat : String)
    (filesDone totalFiles : Nat) : CopyOut :=
  if fs.isDir src then
    copyFiles dst cat totalFiles (fs.mkdirP dst) filesDone (sortedRelFiles fs src)
  else ⟨fs, 0, []⟩

/-- State after the per-category loop shared by `create_backup` and
`restore_backup`: filesystem, running file count, the categories actually
processed, and the emitted events. -/
structure LoopOut where
  fs : FS
  filesDone : Nat
  doneCats : List String
  events : List ProgressEvent
deriving DecidableEq, Repr

/-- The per-category copy loop of `create_backup` (`srcRoot` = SD mount,
`dstRoot` = snapshot directory) and of `restore_backup` (`srcRoot` =
snapshot directory, `dstRoot` = SD mount): skip categories whose source
directory does not exist, otherwise delegate to the tree copier. -/
def categoryLoop (srcRoot dstRoot : FsPath) (total : Nat) :
    FS → Nat → List String → LoopOut
  | fs, filesDone, [] => ⟨fs, filesDone, [], []⟩
  | fs, filesDone, c :: rest =>
    if fs.isDir (srcRoot ++ catPath c) then
      let out := copy_tree_with_progress fs (srcRoot ++ catPath c)
        (dstRoot ++ catPath c) c filesDone total
      let r := categoryLoop srcRoot dstRoot total out.fs (filesDone + out.copied) rest
      ⟨r.fs, r.filesDone, c :: r.doneCats, out.events ++ r.events⟩
    else
      categoryLoop srcRoot dstRoot total fs filesDone rest

/-- `version.replace("/", "_").replace("\\", "_").replace(" ", "_")`. -/
def sanitizeVersion (v : String) : String :=
  ((v.replace "/" "_").replace "\\" "_").replace " " "_"

/-- The snapshot directory name `{timestamp}_{state}[_{safe_version}]`. -/
def backupDirName (fs : FS) (sdMount : FsPath) (tsDir : String) : String :=
  let state := detect_sd_state fs sdMount
  let version := detect_onion_version fs sdMount
  if version ≠ "" then
    tsDir ++ "_" ++ state ++ "_" ++ sanitizeVersion version
  else
    tsDir ++ "_" ++ state

/-- The `(success, backup_path, message)` triple returned by
`create_backup` (the path as a structured path value). -/
structure CreateResult where
  success : Bool
  backupPath : FsPath
  message : String
deriving DecidableEq, Repr

/-- Return value and effects of one `create_backup` run. -/
structure CreateOut where
  result : CreateResult
  fs : FS
  events : List ProgressEvent
deriving DecidableEq, Repr

/-- `create_backup`. `tsDir` and `tsIso` stand for the two renderings of
`datetime.now()`. -/
def create_backup (fs : FS) (sdMount backupDir : FsPath) (categories : List String)
    (description tsDir tsIso : String) : CreateOut :=
  if !fs.isDir sdMount then
    ⟨⟨false, [], "SD card mount point does not exist: " ++ pathToString sdMount⟩, fs, []⟩
  else if (categories.filter (fun c => !isValidCategory c)) ≠ [] then
    ⟨⟨false, [],
      "Unknown backup categories: " ++
        String.intercalate ", " (categories.filter (fun c => !isValidCategory c))⟩, fs, []⟩
  else if categories = [] then
    ⟨⟨false, [], "No categories selected for backup."⟩, fs, []⟩
  else
    let state := detect_sd_state fs sdMount
    let version := detect_onion_version fs sdMount
    let backupPath := backupDir ++ [backupDirName fs sdMount tsDir]
    let fs0 := fs.mkdirP backupPath
    let totalFiles := (categories.map (fun c => count_files fs0 (sdMount ++ catPath c))).sum
    let out := categoryLoop sdMount backupPath totalFiles fs0 0 categories
    let metadata : BackupMetadata :=
      ⟨tsIso, out.doneCats, description, state, version, out.filesDone⟩
    let infoPath := backupPath ++ ["backup_info.json"]
    let fsFinal :=
      if out.fs.unwritable.contains infoPath then out.fs
      else { out.fs with files := setFile out.fs.files infoPath (FileData.sidecar metadata) }
    ⟨⟨true, backupPath,
      "Backup completed: " ++ toString out.filesDone ++ " files in " ++
        toString out.doneCats.length ++ " categories."⟩, fsFinal, out.events⟩

/-- One record returned by `list_backups`. -/
structure BackupRecord where
  path : String
  date : String
  categories : List String
  description : String
  state : String
  version : String
deriving DecidableEq, Repr

/-- The names yielded by `backup_dir.iterdir()`: immediate children of `d`
that exist as directories or files. -/
def childNames (fs : FS) (d : FsPath) : List String :=
  (fs.dirs ++ fs.files.map (fun f => f.1)).filterMap (fun q =>
    if q.length == d.length + 1 && d.isPrefixOf q then q.getLast? else none)

/-- `sorted(..., reverse=True)` on names. -/
def sortDescStr (l : List String) : List String :=
  List.insertionSort (fun a b : String => a ≥ b) l

/-- `json.loads(info_file.read_text())`, `none` on `OSError` or
`JSONDecodeError`. -/
def parseInfo (fs : FS) (p : FsPath) : Option BackupMetadata :=
  match fs.readData p with
  | some (FileData.sidecar m) => some m
  | _ => none

/-- The three checks a directory entry must pass to contribute a record to
`list_backups`: it is a directory, holds a `backup_info.json` regular file,
and that file reads and parses. -/
def validSnapshotDir (fs : FS) (d : FsPath) (name : String) : Bool :=
  fs.isDir (d ++ [name]) && fs.isFile (d ++ [name, "backup_info.json"]) &&
    (parseInfo fs (d ++ [name, "backup_info.json"])).isSome

/-- The record `list_backups` builds for one snapshot directory (with the
`dict.get` defaults for a malformed sidecar, which a valid directory never
hits). -/
def mkRecord (fs : FS) (d : FsPath) (name : String) : BackupRecord :=
  match parseInfo fs (d ++ [name, "backup_info.json"]) with
  | some m => ⟨pathToString (d ++ [name]), m.date, m.categories, m.description, m.state, m.version⟩
  | none => ⟨pathToString (d ++ [name]), "", [], "", "unknown", ""⟩

/-- The entry loop of `list_backups` over the reverse-sorted entry names. -/
def listBackupsLoop (fs : FS) (d : FsPath) : List String → List BackupRecord
  | [] => []
  | name :: rest =>
    if validSnapshotDir fs d name then
      mkRecord fs d name :: listBackupsLoop fs d rest
    else
      listBackupsLoop fs d rest

/-- `list_backups`. -/
def list_backups (fs : FS) (backupDir : FsPath) : List BackupRecord :=
  if fs.isDir backupDir then
    listBackupsLoop fs backupDir (sortDescStr (childNames fs backupDir))
  else []

/-- The `(success, message)` pair returned by `restore_backup` and
`migrate_stock_to_onion`. -/
structure OpResult where
  success : Bool
  message : String
deriving DecidableEq, Repr

/-- Return value and effects of one `restore_backup` or
`migrate_stock_to_onion` run. -/
structure OpOut where
  result : OpResult
  fs : FS
  events : List ProgressEvent
deriving DecidableEq, Repr

/-- `restore_backup`. -/
def restore_backup (fs : FS) (backupPath sdMount : FsPath)
    (categories : List String) : OpOut :=
  if !fs.isDir backupPath then
    ⟨⟨false, "Backup path does not exist: " ++ pathToString backupPath⟩, fs, []⟩
  else if !fs.isDir sdMount then
    ⟨⟨false, "SD card mount point does not exist: " ++ pathToString sdMount⟩, fs, []⟩
  else if (categories.filter (fun c => !isValidCategory c)) ≠ [] then
    ⟨⟨false,
      "Unknown restore categories: " ++
        String.intercalate ", " (categories.filter (fun c => !isValidCategory c))⟩, fs, []⟩
  else if categories = [] then
    ⟨⟨false, "No categories selected for restore."⟩, fs, []⟩
  else
    let totalFiles := (categories.map (fun c => count_files fs (backupPath ++ catPath c))).sum
    let out := categoryLoop backupPath sdMount totalFiles fs 0 categories
    ⟨⟨true,
      "Restore completed: " ++ toString out.filesDone ++ " files in " ++
        toString out.doneCats.length ++ " categories."⟩, out.fs, out.events⟩

/-- `_STOCK_TO_ONION_MAPPINGS`. -/
def STOCK_TO_ONION_MAPPINGS : List (FsPath × FsPath) :=
  [(["RetroArch", ".retroarch", "saves"], ["Saves", "CurrentProfile", "saves"]),
   (["RetroArch", ".retroarch", "states"], ["Saves", "CurrentProfile", "states"])]

/-- The shared directories copied verbatim by `migrate_stock_to_onion`. -/
def sharedDirs : List String := ["Roms", "BIOS", "Imgs"]

/-- One `(src, dst, label)` copy job of `migrate_stock_to_onion`. -/
structure CopyJob where
  src : FsPath
  dst : FsPath
  label : String
deriving DecidableEq, Repr

/-- The job list `migrate_stock_to_onion` builds: the two save remappings
followed by the three shared directories, each kept only when its
stock-side source exists. -/
def buildJobs (fs : FS) (stockMount onionMount : FsPath) : List CopyJob :=
  (STOCK_TO_ONION_MAPPINGS.filterMap (fun m =>
    if fs.isDir (stockMount ++ m.1) then
      some ⟨stockMount ++ m.1, onionMount ++ m.2, "saves (" ++ pathToString m.1 ++ ")"⟩
    else none)) ++
  (sharedDirs.filterMap (fun dn =>
    if fs.isDir (stockMount ++ [dn]) then
      some ⟨stockMount ++ [dn], onionMount ++ [dn], dn⟩
    else none))

/-- The copy loop of `migrate_stock_to_onion` over the prebuilt job list. -/
def jobsLoop (total : Nat) : FS → Nat → List CopyJob → FS × Nat × List ProgressEvent
  | fs, _, [] => (fs, 0, [])
  | fs, filesDone, j :: rest =>
    let out := copy_tree_with_progress fs j.src j.dst j.label filesDone total
    let r := jobsLoop total out.fs (filesDone + out.copied) rest
    (r.1, out.copied + r.2.1, out.events ++ r.2.2)

/-- `migrate_stock_to_onion`. -/
def migrate_stock_to_onion (fs : FS) (stockMount onionMount : FsPath) : OpOut :=
  if !fs.isDir stockMount then
    ⟨⟨false, "Stock SD mount point does not exist: " ++ pathToString stockMount⟩, fs, []⟩
  else if !fs.isDir onionMount then
    ⟨⟨false, "Onion SD mount point does not exist: " ++ pathToString onionMount⟩, fs, []⟩
  else
    let jobs := buildJobs fs stockMount onionMount
    if jobs = [] then
      ⟨⟨true, "Nothing to migrate: no recognised data found on stock SD."⟩, fs, []⟩
    else
      let totalFiles := (jobs.map (fun j => count_files fs j.src)).sum
      let r := jobsLoop totalFiles fs 0 jobs
      ⟨⟨true, "Migration completed: " ++ toString r.2.1 ++ " files copied."⟩, r.1, r.2.2⟩

/-- `sep p q` : neither path is a prefix of the other (the two directories
occupy disjoint filesystem subtrees). -/
def sep (p q : FsPath) : Bool := !(p.isPrefixOf q) && !(q.isPrefixOf p)

/-- `NodupKeys fs` : the association list of files has no duplicate path
(true of every real filesystem). -/
def FS.NodupKeys (fs : FS) : Prop := (fs.files.map (fun f => f.1)).Nodup

/- ----------------------------------------------------------------------
Path lemmas
---------------------------------------------------------------------- -/

lemma isPre_iff {p q : FsPath} : p.isPrefixOf q = true ↔ p <+: q :=
  List.isPrefixOf_iff_prefix

lemma sep_iff {p q : FsPath} : sep p q = true ↔ ¬ p <+: q ∧ ¬ q <+: p := by
  unfold sep
  cases hb : p.isPrefixOf q with
  | true => simp [isPre_iff.mp hb]
  | false =>
    cases hb2 : q.isPrefixOf p with
    | true => simp [isPre_iff.mp hb2]
    | false =>
      have h1 : ¬ p <+: q := fun hx => by simp [isPre_iff.mpr hx] at hb
      have h2 : ¬ q <+: p := fun hx => by simp [isPre_iff.mpr hx] at hb2
      simp [h1, h2]

lemma underB_iff {root p : FsPath} : underB root p = true ↔ root <+: p ∧ root ≠ p := by
  simp only [underB, Bool.and_eq_true, isPre_iff, bne_iff_ne, ne_eq]

lemma prefixComparable {p q r : FsPath} (hp : p <+: r) (hq : q <+: r) :
    p <+: q ∨ q <+: p :=
  List.prefix_or_prefix_of_prefix hp hq

lemma dropLastPre (p : FsPath) : p.dropLast <+: p :=
  List.dropLast_prefix p

lemma appendRecover {p q : FsPath} (h : p <+: q) : p ++ q.drop p.length = q := by
  obtain ⟨t, rfl⟩ := h
  simp [List.drop_left]

/-- Two strict extensions of separated roots are never related: a path
at-or-below `a` cannot be a prefix of a path at-or-below `b`. -/
lemma sep_no_cross {a b p q : FsPath} (hsep : ¬ a <+: b ∧ ¬ b <+: a)
    (hp : a <+: p) (hq : b <+: q) : ¬ p <+: q := by
  intro hpq
  rcases prefixComparable (hp.trans hpq) hq with h | h
  · exact hsep.1 h
  · exact hsep.2 h

/- ----------------------------------------------------------------------
setFile / findFile lemmas
---------------------------------------------------------------------- -/

lemma findFile_eq (fs : FS) (p : FsPath) :
    fs.findFile p = (fs.files.find? (fun f => f.1 == p)).map (fun f => f.2) := rfl

lemma keys_map_replace (files : List (FsPath × FileData)) (p : FsPath) (d : FileData) :
    (files.map (fun f => if (f.1 == p) = true then (p, d) else f)).map (fun f => f.1)
      = files.map (fun f => f.1) := by
  rw [List.map_map]
  refine List.map_congr_left (fun f _ => ?_)
  by_cases hf : f.1 = p
  · simp [hf]
  · simp [hf]

lemma find?_setFile_self (files : List (FsPath × FileData)) (p : FsPath) (d : FileData) :
    ((setFile files p d).find? (fun f => f.1 == p)).map (fun f => f.2) = some d := by
  unfold setFile
  by_cases hc : files.any (fun f => f.1 == p)
  · rw [if_pos hc]
    induction files with
    | nil => simp at hc
    | cons a l ih =>
      by_cases ha : a.1 = p
      · rw [List.map_cons, if_pos (by simpa using ha),
          List.find?_cons_of_pos _ (by simp)]
        rfl
      · rw [List.map_cons, if_neg (by simpa using ha),
          List.find?_cons_of_neg _ (by simpa using ha)]
        refine ih ?_
        simp only [List.any_cons, Bool.or_eq_true] at hc
        rcases hc with hc | hc
        · exact absurd (by simpa using hc) ha
        · exact hc
  · rw [if_neg hc]
    induction files with
    | nil => simp
    | cons a l ih =>
      have ha : ¬ a.1 = p := by
        intro hx
        exact hc (by simp [List.any_cons, hx])
      have hl : ¬ l.any (fun f => f.1 == p) := by
        intro hx
        exact hc (by simp [List.any_cons, hx])
      rw [List.cons_append, List.find?_cons_of_neg _ (by simpa using ha)]
      exact ih hl

lemma find?_setFile_ne (files : List (FsPath × FileData)) (p q : FsPath) (d : FileData)
    (h : q ≠ p) :
    (setFile files p d).find? (fun f => f.1 == q) = files.find? (fun f => f.1 == q) := by
  unfold setFile
  by_cases hc : files.any (fun f => f.1 == p)
  · rw [if_pos hc]
    clear hc
    induction files with
    | nil => simp
    | cons a l ih =>
      by_cases ha : a.1 = p
      · rw [List.map_cons, if_pos (by simpa using ha),
          List.find?_cons_of_neg _ (by simpa using h.symm),
          List.find?_cons_of_neg _ (by simp [ha]; exact fun hx => h (hx ▸ rfl))]
        exact ih
      · rw [List.map_cons, if_neg (by simpa using ha)]
        by_cases haq : a.1 = q
        · rw [List.find?_cons_of_pos _ (by simpa using haq),
            List.find?_cons_of_pos _ (by simpa using haq)]
        · rw [List.find?_cons_of_neg _ (by simpa using haq),
            List.find?_cons_of_neg _ (by simpa using haq)]
          exact ih
  · rw [if_neg hc, List.find?_append]
    have h2 : List.find? (fun f => f.1 == q) [(p, d)] = none := by
      rw [List.find?_cons_of_neg _ (by simpa using h.symm)]
      rfl
    rw [h2]
    simp

lemma filter_setFile_not (files : List (FsPath × FileData)) (p : FsPath) (d : FileData)
    (P : FsPath → Bool) (h : P p = false) :
    (setFile files p d).filter (fun f => P f.1) = files.filter (fun f => P f.1) := by
  unfold setFile
  by_cases hc : files.any (fun f => f.1 == p)
  · rw [if_pos hc]
    clear hc
    induction files with
    | nil => simp
    | cons a l ih =>
      by_cases ha : a.1 = p
      · rw [List.map_cons, if_pos (by simpa using ha), List.filter_cons, List.filter_cons]
        rw [if_neg (by simp [h]), if_neg (by simp [ha, h])]
        exact ih
      · rw [List.map_cons, if_neg (by simpa using ha), List.filter_cons, List.filter_cons]
        cases hP : P a.1
        · rw [if_neg (by simp [hP]), if_neg (by simp [hP])]
          exact ih
        · rw [if_pos (by simp [hP]), if_pos (by simp [hP]), ih]
  · rw [if_neg hc, List.filter_append]
    simp [List.filter, h]

lemma nodupKeys_setFile (files : List (FsPath × FileData)) (p : FsPath) (d : FileData)
    (h : (files.map (fun f => f.1)).Nodup) :
    ((setFile files p d).map (fun f => f.1)).Nodup := by
  unfold setFile
  by_cases hc : files.any (fun f => f.1 == p)
  · rw [if_pos hc, keys_map_replace]
    exact h
  · rw [if_neg hc]
    have hnp : p ∉ files.map (fun f => f.1) := by
      intro hx
      rcases List.mem_map.mp hx with ⟨f, hf, hfp⟩
      exact hc (List.any_eq_true.mpr ⟨f, hf, by simpa using hfp⟩)
    simp [List.nodup_append, h, hnp]

/- ----------------------------------------------------------------------
mkdirP lemmas
---------------------------------------------------------------------- -/

lemma contains_iff_mem {l : List FsPath} {q : FsPath} : l.contains q = true ↔ q ∈ l := by
  simp [List.elem_iff]

lemma mkdirP_files (fs : FS) (p : FsPath) : (fs.mkdirP p).files = fs.files := rfl

lemma mkdirP_unreadable (fs : FS) (p : FsPath) : (fs.mkdirP p).unreadable = fs.unreadable := rfl

lemma mkdirP_unwritable (fs : FS) (p : FsPath) : (fs.mkdirP p).unwritable = fs.unwritable := rfl

lemma mkdirP_findFile (fs : FS) (p q : FsPath) : (fs.mkdirP p).findFile q = fs.findFile q := rfl

lemma mem_dirs_mkdirP {fs : FS} {p q : FsPath} :
    q ∈ (fs.mkdirP p).dirs ↔ q ∈ fs.dirs ∨ q <+: p := by
  simp only [FS.mkdirP, List.mem_append, List.mem_filter, List.mem_inits]
  constructor
  · rintro (h | ⟨h, _⟩)
    · exact Or.inl h
    · exact Or.inr h
  · rintro (h | h)
    · exact Or.inl h
    · by_cases hd : q ∈ fs.dirs
      · exact Or.inl hd
      · refine Or.inr ⟨h, ?_⟩
        simpa [contains_iff_mem] using hd

lemma mkdirP_dirs_sub (fs : FS) (p : FsPath) : fs.dirs ⊆ (fs.mkdirP p).dirs :=
  List.subset_append_left _ _

lemma isDir_mkdirP {fs : FS} {p q : FsPath} :
    (fs.mkdirP p).isDir q = true ↔ fs.isDir q = true ∨ q <+: p := by
  simp only [FS.isDir, contains_iff_mem]
  exact mem_dirs_mkdirP

lemma isDir_mkdirP_self (fs : FS) (p : FsPath) : (fs.mkdirP p).isDir p = true :=
  isDir_mkdirP.mpr (Or.inr List.prefix_rfl)

/- ----------------------------------------------------------------------
Generic path facts used for write confinement
---------------------------------------------------------------------- -/

lemma appendPreMono {a b : FsPath} (c : FsPath) (h : a <+: b) : c ++ a <+: c ++ b := by
  obtain ⟨t, rfl⟩ := h
  exact ⟨t, by rw [List.append_assoc]⟩

lemma ne_append_of_ne_nil {a b : FsPath} (h : b ≠ []) : a ≠ a ++ b := by
  intro hx
  exact h (by simpa using hx.symm)

lemma append_left_cancel_path {a b c : FsPath} (h : a ++ b = a ++ c) : b = c :=
  List.append_cancel_left h

/- ----------------------------------------------------------------------
copyFiles lemmas
---------------------------------------------------------------------- -/

lemma copyFiles_copied (dst : FsPath) (cat : String) (total : Nat) :
    ∀ (items : List (FsPath × FileData)) (fs : FS) (fd : Nat),
      (copyFiles dst cat total fs fd items).copied = items.length := by
  intro items
  induction items with
  | nil => intro fs fd; rfl
  | cons a rest ih =>
    intro fs fd
    simp only [copyFiles, ih, List.length_cons]

lemma copyFiles_unreadable (dst : FsPath) (cat : String) (total : Nat) :
    ∀ (items : List (FsPath × FileData)) (fs : FS) (fd : Nat),
      (copyFiles dst cat total fs fd items).fs.unreadable = fs.unreadable := by
  intro items
  induction items with
  | nil => intro fs fd; rfl
  | cons a rest ih =>
    intro fs fd
    simp only [copyFiles, ih]
    rfl

lemma copyFiles_unwritable (dst : FsPath) (cat : String) (total : Nat) :
    ∀ (items : List (FsPath × FileData)) (fs : FS) (fd : Nat),
      (copyFiles dst cat total fs fd items).fs.unwritable = fs.unwritable := by
  intro items
  induction items with
  | nil => intro fs fd; rfl
  | cons a rest ih =>
    intro fs fd
    simp only [copyFiles, ih]
    rfl

lemma copyFiles_events_length (dst : FsPath) (cat : String) (total : Nat) :
    ∀ (items : List (FsPath × FileData)) (fs : FS) (fd : Nat),
      (copyFiles dst cat total fs fd items).events.length = items.length := by
  intro items
  induction items with
  | nil => intro fs fd; rfl
  | cons a rest ih =>
    intro fs fd
    simp only [copyFiles, List.length_cons, ih]

lemma copyFiles_events_get (dst : FsPath) (cat : String) (total : Nat) :
    ∀ (items : List (FsPath × FileData)) (fs : FS) (fd : Nat) (i : Nat)
      (h : i < (copyFiles dst cat total fs fd items).events.length)
      (h' : i < items.length),
      (copyFiles dst cat total fs fd items).events.get ⟨i, h⟩ =
        ⟨cat, pathToString ((items.get ⟨i, h'⟩).1), fd + i + 1, total⟩ := by
  intro items
  induction items with
  | nil => intro fs fd i h h'; simp at h'
  | cons a rest ih =>
    intro fs fd i h h'
    cases i with
    | zero => rfl
    | succ j =>
      have h'' : j < rest.length := by simpa using h'
      simp only [copyFiles, List.get_cons_succ]
      refine Eq.trans (ih _ (fd + 1) j ?_ h'') ?_
      · rw [copyFiles_events_length]
        exact h''
      · congr 1
        omega

lemma copyFiles_findFile_notin (dst : FsPath) (cat : String) (total : Nat) :
    ∀ (items : List (FsPath × FileData)) (fs : FS) (fd : Nat) (p : FsPath),
      (∀ rel ∈ items.map (fun x => x.1), p ≠ dst ++ rel) →
      (copyFiles dst cat total fs fd items).fs.findFile p = fs.findFile p := by
  intro items
  induction items with
  | nil => intro fs fd p _; rfl
  | cons a rest ih =>
    intro fs fd p hp
    have hne : p ≠ dst ++ a.1 := hp a.1 (by rw [List.map_cons]; exact List.mem_cons_self _ _)
    simp only [copyFiles]
    rw [ih _ _ _ (fun rel hrel =>
      hp rel (by rw [List.map_cons]; exact List.mem_cons_of_mem _ hrel))]
    show FS.findFile _ p = _
    unfold FS.findFile
    simp only [mkdirP_files]
    rw [find?_setFile_ne _ _ _ _ hne]

lemma copyFiles_findFile_mem (dst : FsPath) (cat : String) (total : Nat) :
    ∀ (items : List (FsPath × FileData)) (fs : FS) (fd : Nat) (rel : FsPath) (d : FileData),
      (items.map (fun x => x.1)).Nodup → (rel, d) ∈ items →
      (copyFiles dst cat total fs fd items).fs.findFile (dst ++ rel) = some d := by
  intro items
  induction items with
  | nil => intro fs fd rel d _ hmem; simp at hmem
  | cons a rest ih =>
    intro fs fd rel d hnd hmem
    rcases List.mem_cons.mp hmem with heq | hmem
    · subst heq
      simp only [copyFiles]
      have hnotin : ∀ r ∈ rest.map (fun x => x.1), dst ++ rel ≠ dst ++ r := by
        intro r hr hx
        have hrr : rel = r := append_left_cancel_path hx
        subst hrr
        simp only [List.map_cons, List.nodup_cons] at hnd
        exact hnd.1 hr
      rw [copyFiles_findFile_notin dst cat total rest _ _ _ hnotin]
      show FS.findFile _ (dst ++ rel) = some d
      unfold FS.findFile
      exact find?_setFile_self _ _ _
    · simp only [copyFiles]
      refine ih _ _ rel d ?_ hmem
      simp only [List.map_cons, List.nodup_cons] at hnd
      exact hnd.2

lemma copyFiles_filter (dst : FsPath) (cat : String) (total : Nat) (P : FsPath → Bool) :
    ∀ (items : List (FsPath × FileData)) (fs : FS) (fd : Nat),
      (∀ rel ∈ items.map (fun x => x.1), P (dst ++ rel) = false) →
      (copyFiles dst cat total fs fd items).fs.files.filter (fun f => P f.1)
        = fs.files.filter (fun f => P f.1) := by
  intro items
  induction items with
  | nil => intro fs fd _; rfl
  | cons a rest ih =>
    intro fs fd hp
    simp only [copyFiles]
    rw [ih _ _ (fun rel hrel =>
      hp rel (by rw [List.map_cons]; exact List.mem_cons_of_mem _ hrel))]
    show List.filter _ (setFile _ _ _) = _
    rw [filter_setFile_not _ _ _ _
      (hp a.1 (by rw [List.map_cons]; exact List.mem_cons_self _ _))]
    rfl

lemma copyFiles_dirs_sub (dst : FsPath) (cat : String) (total : Nat) :
    ∀ (items : List (FsPath × FileData)) (fs : FS) (fd : Nat),
      fs.dirs ⊆ (copyFiles dst cat total fs fd items).fs.dirs := by
  intro items
  induction items with
  | nil => intro fs fd; exact fun x h => h
  | cons a rest ih =>
    intro fs fd
    intro x hx
    simp only [copyFiles]
    refine ih _ _ ?_
    show x ∈ (FS.mkdirP _ _).dirs
    exact mkdirP_dirs_sub _ _ hx

lemma copyFiles_mem_dirs (dst : FsPath) (cat : String) (total : Nat) :
    ∀ (items : List (FsPath × FileData)) (fs : FS) (fd : Nat) (q : FsPath),
      q ∈ (copyFiles dst cat total fs fd items).fs.dirs →
      q ∈ fs.dirs ∨ ∃ rel ∈ items.map (fun x => x.1), q <+: dst ++ rel := by
  intro items
  induction items with
  | nil => intro fs fd q h; exact Or.inl h
  | cons a rest ih =>
    intro fs fd q h
    simp only [copyFiles] at h
    rcases ih _ _ q h with h1 | ⟨rel, hrel, hpre⟩
    · have h2 : q ∈ (FS.mkdirP fs (dst ++ a.1.dropLast)).dirs := h1
      rcases mem_dirs_mkdirP.mp h2 with h3 | h3
      · exact Or.inl h3
      · refine Or.inr ⟨a.1, by rw [List.map_cons]; exact List.mem_cons_self _ _, ?_⟩
        exact h3.trans (appendPreMono dst (dropLastPre a.1))
    · exact Or.inr ⟨rel, by rw [List.map_cons]; exact List.mem_cons_of_mem _ hrel, hpre⟩

lemma copyFiles_nodupKeys (dst : FsPath) (cat : String) (total : Nat) :
    ∀ (items : List (FsPath × FileData)) (fs : FS) (fd : Nat),
      fs.NodupKeys → (copyFiles dst cat total fs fd items).fs.NodupKeys := by
  intro items
  induction items with
  | nil => intro fs fd h; exact h
  | cons a rest ih =>
    intro fs fd h
    simp only [copyFiles]
    refine ih _ _ ?_
    exact nodupKeys_setFile _ _ _ h

/- ----------------------------------------------------------------------
relFilesUnder / sortedRelFiles lemmas
---------------------------------------------------------------------- -/

lemma sortedRelFiles_perm (fs : FS) (src : FsPath) :
    (sortedRelFiles fs src).Perm (relFilesUnder fs src) :=
  List.perm_insertionSort _ _

lemma mem_sortedRelFiles {fs : FS} {src : FsPath} {x : FsPath × FileData} :
    x ∈ sortedRelFiles fs src ↔ x ∈ relFilesUnder fs src :=
  (sortedRelFiles_perm fs src).mem_iff

lemma mem_relFilesUnder {fs : FS} {src rel : FsPath} {d : FileData} :
    (rel, d) ∈ relFilesUnder fs src ↔ (src ++ rel, d) ∈ fs.files ∧ rel ≠ [] := by
  constructor
  · intro h
    rcases List.mem_map.mp h with ⟨f, hf, hfd⟩
    rcases List.mem_filter.mp hf with ⟨hmem, hu⟩
    rcases underB_iff.mp hu with ⟨hpre, hne⟩
    have h1 : f.1.drop src.length = rel := by
      have := congrArg Prod.fst hfd
      simpa using this
    have h2 : f.2 = d := by
      have := congrArg Prod.snd hfd
      simpa using this
    have h3 : src ++ rel = f.1 := by
      rw [← h1]
      exact appendRecover hpre
    constructor
    · rw [h3, ← h2]
      exact hmem
    · intro hx
      subst hx
      exact hne (by simpa using h3)
  · rintro ⟨hmem, hne⟩
    refine List.mem_map.mpr ⟨(src ++ rel, d), List.mem_filter.mpr ⟨hmem, ?_⟩, ?_⟩
    · exact underB_iff.mpr ⟨List.prefix_append _ _, ne_append_of_ne_nil hne⟩
    · simp [List.drop_left]

lemma relFilesUnder_length (fs : FS) (src : FsPath) :
    (relFilesUnder fs src).length
      = (fs.files.filter (fun f => underB src f.1)).length := by
  simp [relFilesUnder]

lemma sortedRelFiles_length (fs : FS) (src : FsPath) :
    (sortedRelFiles fs src).length
      = (fs.files.filter (fun f => underB src f.1)).length := by
  rw [(sortedRelFiles_perm fs src).length_eq, relFilesUnder_length]

lemma relFilesUnder_keys_nodup {fs : FS} (src : FsPath) (h : fs.NodupKeys) :
    ((relFilesUnder fs src).map (fun x => x.1)).Nodup := by
  unfold relFilesUnder
  rw [List.map_map]
  have hbase : ((fs.files.filter (fun f => underB src f.1)).map (fun f => f.1)).Nodup :=
    h.sublist (List.Sublist.map _ (List.filter_sublist fs.files))
  have heq : ((fs.files.filter (fun f => underB src f.1)).map
      ((fun x : FsPath × FileData => x.1) ∘ (fun f : FsPath × FileData => (f.1.drop src.length, f.2))))
      = ((fs.files.filter (fun f => underB src f.1)).map (fun f => f.1)).map
          (fun q => q.drop src.length) := by
    rw [List.map_map]
    exact List.map_congr_left (fun f _ => rfl)
  rw [heq]
  refine hbase.map_on ?_
  intro x hx y hy hxy
  rcases List.mem_map.mp hx with ⟨f, hf, hfx⟩
  rcases List.mem_map.mp hy with ⟨g, hg, hgy⟩
  have hfx' : underB src x = true := by
    rw [← hfx]
    exact (List.mem_filter.mp hf).2
  have hgy' : underB src y = true := by
    rw [← hgy]
    exact (List.mem_filter.mp hg).2
  have h1 := appendRecover (underB_iff.mp hfx').1
  have h2 := appendRecover (underB_iff.mp hgy').1
  rw [← h1, ← h2, hxy]

lemma sortedRelFiles_keys_nodup {fs : FS} (src : FsPath) (h : fs.NodupKeys) :
    ((sortedRelFiles fs src).map (fun x => x.1)).Nodup :=
  (((sortedRelFiles_perm fs src).map (fun x => x.1)).nodup_iff).mpr
    (relFilesUnder_keys_nodup src h)

/- ----------------------------------------------------------------------
copy_tree_with_progress lemmas
---------------------------------------------------------------------- -/

lemma copy_tree_of_not_dir {fs : FS} {src dst : FsPath} {cat : String} {fd tot : Nat}
    (h : ¬ fs.isDir src = true) :
    copy_tree_with_progress fs src dst cat fd tot = ⟨fs, 0, []⟩ := by
  simp [copy_tree_with_progress, h]

lemma copy_tree_copied {fs : FS} {src dst : FsPath} {cat : String} {fd tot : Nat}
    (h : fs.isDir src = true) :
    (copy_tree_with_progress fs src dst cat fd tot).copied = count_files fs src := by
  unfold copy_tree_with_progress count_files
  rw [if_pos h, if_pos h, copyFiles_copied, sortedRelFiles_length]

lemma copy_tree_events_length {fs : FS} {src dst : FsPath} {cat : String} {fd tot : Nat}
    (h : fs.isDir src = true) :
    (copy_tree_with_progress fs src dst cat fd tot).events.length = count_files fs src := by
  unfold copy_tree_with_progress count_files
  rw [if_pos h, if_pos h, copyFiles_events_length, sortedRelFiles_length]

lemma copy_tree_unreadable (fs : FS) (src dst : FsPath) (cat : String) (fd tot : Nat) :
    (copy_tree_with_progress fs src dst cat fd tot).fs.unreadable = fs.unreadable := by
  unfold copy_tree_with_progress
  by_cases h : fs.isDir src = true
  · rw [if_pos h, copyFiles_unreadable, mkdirP_unreadable]
  · rw [if_neg h]

lemma copy_tree_unwritable (fs : FS) (src dst : FsPath) (cat : String) (fd tot : Nat) :
    (copy_tree_with_progress fs src dst cat fd tot).fs.unwritable = fs.unwritable := by
  unfold copy_tree_with_progress
  by_cases h : fs.isDir src = true
  · rw [if_pos h, copyFiles_unwritable, mkdirP_unwritable]
  · rw [if_neg h]

lemma copy_tree_nodupKeys {fs : FS} (src dst : FsPath) (cat : String) (fd tot : Nat)
    (h : fs.NodupKeys) :
    (copy_tree_with_progress fs src dst cat fd tot).fs.NodupKeys := by
  unfold copy_tree_with_progress
  by_cases hd : fs.isDir src = true
  · rw [if_pos hd]
    exact copyFiles_nodupKeys _ _ _ _ _ _ h
  · rw [if_neg hd]
    exact h

lemma mem_relFilesUnder' {fs : FS} {src : FsPath} {x : FsPath × FileData} :
    x ∈ relFilesUnder fs src ↔ (src ++ x.1, x.2) ∈ fs.files ∧ x.1 ≠ [] := by
  obtain ⟨rel, d⟩ := x
  exact mem_relFilesUnder

lemma copy_tree_findFile_away {fs : FS} {src dst p : FsPath} {cat : String} {fd tot : Nat}
    (hp : ¬ (dst <+: p ∧ p ≠ dst)) :
    (copy_tree_with_progress fs src dst cat fd tot).fs.findFile p = fs.findFile p := by
  unfold copy_tree_with_progress
  by_cases hd : fs.isDir src = true
  · rw [if_pos hd]
    have hnotin : ∀ rel ∈ (sortedRelFiles fs src).map (fun x => x.1), p ≠ dst ++ rel := by
      intro rel hrel hx
      rcases List.mem_map.mp hrel with ⟨x, hxmem, hx1⟩
      have hne : x.1 ≠ [] := (mem_relFilesUnder'.mp (mem_sortedRelFiles.mp hxmem)).2
      subst hx1
      refine hp ⟨?_, ?_⟩
      · rw [hx]
        exact List.prefix_append _ _
      · rw [hx]
        exact (ne_append_of_ne_nil hne).symm
    rw [copyFiles_findFile_notin _ _ _ _ _ _ _ hnotin]
    exact mkdirP_findFile fs dst p
  · rw [if_neg hd]

lemma copy_tree_filter_away {fs : FS} {src dst : FsPath} {cat : String} {fd tot : Nat}
    (P : FsPath → Bool) (hP : ∀ q, P q = true → ¬ (dst <+: q ∧ q ≠ dst)) :
    (copy_tree_with_progress fs src dst cat fd tot).fs.files.filter (fun f => P f.1)
      = fs.files.filter (fun f => P f.1) := by
  unfold copy_tree_with_progress
  by_cases hd : fs.isDir src = true
  · rw [if_pos hd]
    have hfalse : ∀ rel ∈ (sortedRelFiles fs src).map (fun x => x.1), P (dst ++ rel) = false := by
      intro rel hrel
      rcases List.mem_map.mp hrel with ⟨x, hxmem, hx1⟩
      have hne : x.1 ≠ [] := (mem_relFilesUnder'.mp (mem_sortedRelFiles.mp hxmem)).2
      subst hx1
      cases hPq : P (dst ++ x.1)
      · rfl
      · exfalso
        exact hP _ hPq ⟨List.prefix_append _ _, (ne_append_of_ne_nil hne).symm⟩
    rw [copyFiles_filter _ _ _ _ _ _ _ hfalse]
    rfl
  · rw [if_neg hd]

lemma copy_tree_dirs_sub (fs : FS) (src dst : FsPath) (cat : String) (fd tot : Nat) :
    fs.dirs ⊆ (copy_tree_with_progress fs src dst cat fd tot).fs.dirs := by
  unfold copy_tree_with_progress
  by_cases hd : fs.isDir src = true
  · rw [if_pos hd]
    intro q hq
    exact copyFiles_dirs_sub _ _ _ _ _ _ (mkdirP_dirs_sub fs dst hq)
  · rw [if_neg hd]
    exact fun q hq => hq

lemma copy_tree_mem_dirs {fs : FS} {src dst q : FsPath} {cat : String} {fd tot : Nat}
    (h : q ∈ (copy_tree_with_progress fs src dst cat fd tot).fs.dirs) :
    q ∈ fs.dirs ∨ ∃ x, q <+: dst ++ x := by
  unfold copy_tree_with_progress at h
  by_cases hd : fs.isDir src = true
  · rw [if_pos hd] at h
    rcases copyFiles_mem_dirs _ _ _ _ _ _ _ h with h1 | ⟨rel, _, hpre⟩
    · rcases mem_dirs_mkdirP.mp h1 with h2 | h2
      · exact Or.inl h2
      · exact Or.inr ⟨[], by simpa using h2⟩
    · exact Or.inr ⟨rel, hpre⟩
  · rw [if_neg hd] at h
    exact Or.inl h

lemma copy_tree_isDir_dst {fs : FS} {src dst : FsPath} {cat : String} {fd tot : Nat}
    (h : fs.isDir src = true) :
    (copy_tree_with_progress fs src dst cat fd tot).fs.isDir dst = true := by
  unfold copy_tree_with_progress
  rw [if_pos h]
  simp only [FS.isDir, contains_iff_mem]
  exact copyFiles_dirs_sub _ _ _ _ _ _
    (by simpa [FS.isDir, contains_iff_mem] using isDir_mkdirP_self fs dst)

lemma copy_tree_isDir_mono {fs : FS} {src dst q : FsPath} {cat : String} {fd tot : Nat}
    (h : fs.isDir q = true) :
    (copy_tree_with_progress fs src dst cat fd tot).fs.isDir q = true := by
  simp only [FS.isDir, contains_iff_mem] at h ⊢
  exact copy_tree_dirs_sub fs src dst cat fd tot h

lemma copy_tree_findFile_mem {fs : FS} {src dst rel : FsPath} {d : FileData}
    {cat : String} {fd tot : Nat}
    (h : fs.isDir src = true) (hnd : fs.NodupKeys)
    (hmem : (src ++ rel, d) ∈ fs.files) (hrel : rel ≠ []) :
    (copy_tree_with_progress fs src dst cat fd tot).fs.findFile (dst ++ rel) = some d := by
  unfold copy_tree_with_progress
  rw [if_pos h]
  exact copyFiles_findFile_mem _ _ _ _ _ _ _ _ (sortedRelFiles_keys_nodup src hnd)
    (mem_sortedRelFiles.mpr (mem_relFilesUnder.mpr ⟨hmem, hrel⟩))

lemma copy_tree_findFile_notkey {fs : FS} {src dst rel : FsPath}
    {cat : String} {fd tot : Nat}
    (hkey : ∀ d, (src ++ rel, d) ∉ fs.files) :
    (copy_tree_with_progress fs src dst cat fd tot).fs.findFile (dst ++ rel)
      = fs.findFile (dst ++ rel) := by
  unfold copy_tree_with_progress
  by_cases hd : fs.isDir src = true
  · rw [if_pos hd]
    have hnotin : ∀ r ∈ (sortedRelFiles fs src).map (fun x => x.1), dst ++ rel ≠ dst ++ r := by
      intro r hr hx
      rcases List.mem_map.mp hr with ⟨x, hxmem, hx1⟩
      have hrr : rel = r := append_left_cancel_path hx
      subst hrr
      have hm : (src ++ x.1, x.2) ∈ fs.files :=
        (mem_relFilesUnder'.mp (mem_sortedRelFiles.mp hxmem)).1
      rw [hx1] at hm
      exact hkey x.2 hm
    rw [copyFiles_findFile_notin _ _ _ _ _ _ _ hnotin]
    exact mkdirP_findFile _ _ _
  · rw [if_neg hd]

/- ----------------------------------------------------------------------
Progress-event numbering
---------------------------------------------------------------------- -/

/-- `eventsNumbered evs fd total` : the events carry `files_done` values
`fd+1, fd+2, ...` in order and all carry the same `total_files` value. -/
def eventsNumbered (evs : List ProgressEvent) (fd total : Nat) : Prop :=
  ∀ i (h : i < evs.length),
    (evs.get ⟨i, h⟩).files_done = fd + i + 1 ∧ (evs.get ⟨i, h⟩).total_files = total

lemma eventsNumbered_nil (fd total : Nat) : eventsNumbered [] fd total := by
  intro i h
  simp at h

lemma eventsNumbered_append {e1 e2 : List ProgressEvent} {fd total : Nat}
    (h1 : eventsNumbered e1 fd total)
    (h2 : eventsNumbered e2 (fd + e1.length) total) :
    eventsNumbered (e1 ++ e2) fd total := by
  intro i h
  by_cases hi : i < e1.length
  · rw [List.get_append i hi]
    exact h1 i hi
  · have hlen : i < e1.length + e2.length := by simpa using h
    have hi2 : i - e1.length < e2.length := by omega
    have heq : (e1 ++ e2).get ⟨i, h⟩ = e2.get ⟨i - e1.length, hi2⟩ := by
      rw [List.get_append_right] <;> omega
    rw [heq]
    rcases h2 (i - e1.length) hi2 with ⟨ha, hb⟩
    constructor
    · rw [ha]
      omega
    · rw [hb]

lemma copyFiles_eventsNumbered (dst : FsPath) (cat : String) (total : Nat)
    (items : List (FsPath × FileData)) (fs : FS) (fd : Nat) :
    eventsNumbered (copyFiles dst cat total fs fd items).events fd total := by
  intro i h
  have h' : i < items.length := by
    rw [copyFiles_events_length] at h
    exact h
  rw [copyFiles_events_get dst cat total items fs fd i h h']
  exact ⟨rfl, rfl⟩

lemma copy_tree_eventsNumbered (fs : FS) (src dst : FsPath) (cat : String) (fd tot : Nat) :
    eventsNumbered (copy_tree_with_progress fs src dst cat fd tot).events fd tot := by
  unfold copy_tree_with_progress
  by_cases hd : fs.isDir src = true
  · rw [if_pos hd]
    exact copyFiles_eventsNumbered _ _ _ _ _ _
  · rw [if_neg hd]
    exact eventsNumbered_nil fd tot

/- ----------------------------------------------------------------------
Category-table facts
---------------------------------------------------------------------- -/

lemma valid_cases {c : String} (h : isValidCategory c = true) :
    c = "roms" ∨ c = "imgs" ∨ c = "saves" ∨ c = "ra_config" ∨ c = "bios"
      ∨ c = "onion_config" := by
  simp only [isValidCategory, BACKUP_CATEGORIES, List.any_cons, List.any_nil,
    Bool.or_eq_true, beq_iff_eq] at h
  tauto

lemma catPath_ne_nil {c : String} (h : isValidCategory c = true) : catPath c ≠ [] := by
  rcases valid_cases h with rfl | rfl | rfl | rfl | rfl | rfl <;> decide

lemma catPath_not_pre {c c' : String} (h : isValidCategory c = true)
    (h' : isValidCategory c' = true) (hne : c ≠ c') : ¬ catPath c <+: catPath c' := by
  rcases valid_cases h with rfl | rfl | rfl | rfl | rfl | rfl <;>
    rcases valid_cases h' with rfl | rfl | rfl | rfl | rfl | rfl <;>
      first
        | exact absurd rfl hne
        | decide

lemma catPath_cross {c c' : String} (hc : isValidCategory c = true)
    (hc' : isValidCategory c' = true) {x : FsPath}
    (h : catPath c <+: catPath c' ++ x) : c = c' := by
  by_contra hne
  rcases prefixComparable h (List.prefix_append (catPath c') x) with h1 | h1
  · exact catPath_not_pre hc hc' hne h1
  · exact catPath_not_pre hc' hc (Ne.symm hne) h1

lemma pre_cancel_left {c a b : FsPath} (h : c ++ a <+: c ++ b) : a <+: b := by
  obtain ⟨t, ht⟩ := h
  rw [List.append_assoc] at ht
  exact ⟨t, append_left_cancel_path ht⟩

/- ----------------------------------------------------------------------
findFile / membership conversions
---------------------------------------------------------------------- -/

lemma findFile_some_mem {fs : FS} {p : FsPath} {d : FileData}
    (h : fs.findFile p = some d) : (p, d) ∈ fs.files := by
  unfold FS.findFile at h
  cases hf : fs.files.find? (fun f => f.1 == p) with
  | none => rw [hf] at h; simp at h
  | some f =>
    rw [hf] at h
    have h1 : f.1 = p := by simpa using List.find?_some hf
    have h2 : f.2 = d := by simpa using h
    have h3 : f ∈ fs.files := List.mem_of_find?_eq_some hf
    have : f = (p, d) := Prod.ext h1 h2
    rw [← this]
    exact h3

lemma findFile_none_notkey {fs : FS} {p : FsPath}
    (h : fs.findFile p = none) : ∀ d, (p, d) ∉ fs.files := by
  intro d hd
  unfold FS.findFile at h
  cases hf : fs.files.find? (fun f => f.1 == p) with
  | none =>
    have := List.find?_eq_none.mp hf (p, d) hd
    simp at this
  | some f => rw [hf] at h; simp at h

lemma findFile_none_of_not_isFile {fs : FS} {p : FsPath}
    (h : fs.isFile p = false) : fs.findFile p = none := by
  unfold FS.isFile at h
  unfold FS.findFile
  cases hf : fs.files.find? (fun f => f.1 == p) with
  | none => rfl
  | some f =>
    exfalso
    have h1 := List.find?_some hf
    have h3 : f ∈ fs.files := List.mem_of_find?_eq_some hf
    have : fs.files.any (fun f => f.1 == p) = true := List.any_eq_true.mpr ⟨f, h3, h1⟩
    rw [h] at this
    cases this

lemma findFile_mem_of_nodup {fs : FS} {p : FsPath} {d : FileData}
    (hnd : fs.NodupKeys) (h : (p, d) ∈ fs.files) : fs.findFile p = some d := by
  unfold FS.findFile
  cases hf : fs.files.find? (fun f => f.1 == p) with
  | none =>
    exfalso
    have := List.find?_eq_none.mp hf (p, d) h
    simp at this
  | some f =>
    have h1 : f.1 = p := by simpa using List.find?_some hf
    have h3 : f ∈ fs.files := List.mem_of_find?_eq_some hf
    have hfe : f = (p, d) := List.inj_on_of_nodup_map hnd h3 h (by simpa using h1)
    rw [hfe]
    rfl

/- ----------------------------------------------------------------------
One copy step leaves the source side untouched
---------------------------------------------------------------------- -/

lemma step_src_findFile {fs : FS} {srcRoot dstRoot p : FsPath} {c cat : String}
    {fd tot : Nat}
    (hsep : ¬ srcRoot <+: dstRoot ∧ ¬ dstRoot <+: srcRoot) (hp : srcRoot <+: p) :
    (copy_tree_with_progress fs (srcRoot ++ catPath c) (dstRoot ++ catPath c)
        cat fd tot).fs.findFile p = fs.findFile p := by
  refine copy_tree_findFile_away ?_
  rintro ⟨hpre, -⟩
  have h1 : dstRoot <+: p := (List.prefix_append dstRoot (catPath c)).trans hpre
  rcases prefixComparable hp h1 with h2 | h2
  · exact hsep.1 h2
  · exact hsep.2 h2

lemma step_src_isDir {fs : FS} {srcRoot dstRoot p : FsPath} {c cat : String}
    {fd tot : Nat}
    (hsep : ¬ srcRoot <+: dstRoot ∧ ¬ dstRoot <+: srcRoot) (hp : srcRoot <+: p) :
    (copy_tree_with_progress fs (srcRoot ++ catPath c) (dstRoot ++ catPath c)
        cat fd tot).fs.isDir p = fs.isDir p := by
  cases hd : fs.isDir p with
  | true => exact copy_tree_isDir_mono hd
  | false =>
    cases hout : (copy_tree_with_progress fs (srcRoot ++ catPath c)
        (dstRoot ++ catPath c) cat fd tot).fs.isDir p with
    | false => rfl
    | true =>
      exfalso
      have hmem : p ∈ (copy_tree_with_progress fs (srcRoot ++ catPath c)
          (dstRoot ++ catPath c) cat fd tot).fs.dirs := by
        simpa [FS.isDir, contains_iff_mem] using hout
      rcases copy_tree_mem_dirs hmem with h1 | ⟨x, hx⟩
      · have : fs.isDir p = true := by simpa [FS.isDir, contains_iff_mem] using h1
        rw [hd] at this
        cases this
      · have h2 : dstRoot <+: dstRoot ++ catPath c ++ x :=
          (List.prefix_append dstRoot (catPath c)).trans
            (List.prefix_append (dstRoot ++ catPath c) x)
        have h3 : srcRoot <+: dstRoot ++ catPath c ++ x := hp.trans hx
        rcases prefixComparable h3 h2 with h4 | h4
        · exact hsep.1 h4
        · exact hsep.2 h4

lemma step_src_count {fs : FS} {srcRoot dstRoot root : FsPath} {c cat : String}
    {fd tot : Nat}
    (hsep : ¬ srcRoot <+: dstRoot ∧ ¬ dstRoot <+: srcRoot) (hroot : srcRoot <+: root) :
    count_files (copy_tree_with_progress fs (srcRoot ++ catPath c)
        (dstRoot ++ catPath c) cat fd tot).fs root = count_files fs root := by
  unfold count_files
  rw [step_src_isDir hsep hroot]
  by_cases hd : fs.isDir root = true
  · rw [if_pos hd, if_pos hd]
    have hfil := @copy_tree_filter_away fs (srcRoot ++ catPath c)
      (dstRoot ++ catPath c) cat fd tot (fun q => underB root q) ?_
    · rw [hfil]
    · intro q hq
      rintro ⟨hpre, -⟩
      rcases underB_iff.mp hq with ⟨hq1, -⟩
      have h1 : dstRoot <+: q := (List.prefix_append dstRoot (catPath c)).trans hpre
      have h2 : srcRoot <+: q := hroot.trans hq1
      rcases prefixComparable h2 h1 with h3 | h3
      · exact hsep.1 h3
      · exact hsep.2 h3
  · rw [if_neg hd, if_neg hd]

/- ----------------------------------------------------------------------
categoryLoop lemmas
---------------------------------------------------------------------- -/

lemma loop_unreadable (srcRoot dstRoot : FsPath) (total : Nat) :
    ∀ (cats : List String) (fs : FS) (fd : Nat),
      (categoryLoop srcRoot dstRoot total fs fd cats).fs.unreadable = fs.unreadable := by
  intro cats
  induction cats with
  | nil => intro fs fd; rfl
  | cons c rest ih =>
    intro fs fd
    unfold categoryLoop
    by_cases hd : fs.isDir (srcRoot ++ catPath c) = true
    · rw [if_pos hd]
      simp only [ih, copy_tree_unreadable]
    · rw [if_neg hd]
      exact ih fs fd

lemma loop_unwritable (srcRoot dstRoot : FsPath) (total : Nat) :
    ∀ (cats : List String) (fs : FS) (fd : Nat),
      (categoryLoop srcRoot dstRoot total fs fd cats).fs.unwritable = fs.unwritable := by
  intro cats
  induction cats with
  | nil => intro fs fd; rfl
  | cons c rest ih =>
    intro fs fd
    unfold categoryLoop
    by_cases hd : fs.isDir (srcRoot ++ catPath c) = true
    · rw [if_pos hd]
      simp only [ih, copy_tree_unwritable]
    · rw [if_neg hd]
      exact ih fs fd

lemma loop_nodupKeys (srcRoot dstRoot : FsPath) (total : Nat) :
    ∀ (cats : List String) (fs : FS) (fd : Nat), fs.NodupKeys →
      (categoryLoop srcRoot dstRoot total fs fd cats).fs.NodupKeys := by
  intro cats
  induction cats with
  | nil => intro fs fd h; exact h
  | cons c rest ih =>
    intro fs fd h
    unfold categoryLoop
    by_cases hd : fs.isDir (srcRoot ++ catPath c) = true
    · rw [if_pos hd]
      exact ih _ _ (copy_tree_nodupKeys _ _ _ _ _ h)
    · rw [if_neg hd]
      exact ih fs fd h

lemma loop_dirs_sub (srcRoot dstRoot : FsPath) (total : Nat) :
    ∀ (cats : List String) (fs : FS) (fd : Nat),
      fs.dirs ⊆ (categoryLoop srcRoot dstRoot total fs fd cats).fs.dirs := by
  intro cats
  induction cats with
  | nil => intro fs fd; exact fun q h => h
  | cons c rest ih =>
    intro fs fd
    unfold categoryLoop
    by_cases hd : fs.isDir (srcRoot ++ catPath c) = true
    · rw [if_pos hd]
      intro q hq
      exact ih _ _ (copy_tree_dirs_sub _ _ _ _ _ _ hq)
    · rw [if_neg hd]
      exact ih fs fd

lemma loop_isDir_mono {srcRoot dstRoot : FsPath} {total : Nat}
    {cats : List String} {fs : FS} {fd : Nat} {q : FsPath} (h : fs.isDir q = true) :
    (categoryLoop srcRoot dstRoot total fs fd cats).fs.isDir q = true := by
  simp only [FS.isDir, contains_iff_mem] at h ⊢
  exact loop_dirs_sub srcRoot dstRoot total cats fs fd h

lemma loop_mem_dirs (srcRoot dstRoot : FsPath) (total : Nat) :
    ∀ (cats : List String) (fs : FS) (fd : Nat) (q : FsPath),
      q ∈ (categoryLoop srcRoot dstRoot total fs fd cats).fs.dirs →
      q ∈ fs.dirs ∨ ∃ c ∈ cats, ∃ x, q <+: dstRoot ++ catPath c ++ x := by
  intro cats
  induction cats with
  | nil => intro fs fd q h; exact Or.inl h
  | cons c rest ih =>
    intro fs fd q h
    unfold categoryLoop at h
    by_cases hd : fs.isDir (srcRoot ++ catPath c) = true
    · rw [if_pos hd] at h
      rcases ih _ _ q h with h1 | ⟨c', hc', x, hx⟩
      · rcases copy_tree_mem_dirs h1 with h2 | ⟨x, hx⟩
        · exact Or.inl h2
        · exact Or.inr ⟨c, List.mem_cons_self _ _, x, hx⟩
      · exact Or.inr ⟨c', List.mem_cons_of_mem _ hc', x, hx⟩
    · rw [if_neg hd] at h
      rcases ih _ _ q h with h1 | ⟨c', hc', x, hx⟩
      · exact Or.inl h1
      · exact Or.inr ⟨c', List.mem_cons_of_mem _ hc', x, hx⟩

lemma loop_findFile_frame (srcRoot dstRoot : FsPath) (total : Nat) :
    ∀ (cats : List String) (fs : FS) (fd : Nat) (p : FsPath),
      (∀ c ∈ cats, ∀ rel, rel ≠ [] → p ≠ dstRoot ++ catPath c ++ rel) →
      (categoryLoop srcRoot dstRoot total fs fd cats).fs.findFile p = fs.findFile p := by
  intro cats
  induction cats with
  | nil => intro fs fd p _; rfl
  | cons c rest ih =>
    intro fs fd p hp
    unfold categoryLoop
    by_cases hd : fs.isDir (srcRoot ++ catPath c) = true
    · rw [if_pos hd]
      rw [ih _ _ _ (fun c' hc' rel hrel => hp c' (List.mem_cons_of_mem _ hc') rel hrel)]
      show (copy_tree_with_progress fs (srcRoot ++ catPath c)
          (dstRoot ++ catPath c) c fd total).fs.findFile p = fs.findFile p
      unfold copy_tree_with_progress
      rw [if_pos hd]
      have hnotin : ∀ rel ∈ (sortedRelFiles fs (srcRoot ++ catPath c)).map (fun x => x.1),
          p ≠ (dstRoot ++ catPath c) ++ rel := by
        intro rel hrel
        rcases List.mem_map.mp hrel with ⟨x, hxmem, hx1⟩
        have hne : x.1 ≠ [] :=
          (mem_relFilesUnder'.mp (mem_sortedRelFiles.mp hxmem)).2
        subst hx1
        exact hp c (List.mem_cons_self _ _) x.1 hne
      rw [copyFiles_findFile_notin _ _ _ _ _ _ _ hnotin]
      exact mkdirP_findFile _ _ _
    · rw [if_neg hd]
      exact ih _ _ _ (fun c' hc' rel hrel => hp c' (List.mem_cons_of_mem _ hc') rel hrel)

lemma loop_src_findFile (srcRoot dstRoot : FsPath) (total : Nat)
    (hsep : ¬ srcRoot <+: dstRoot ∧ ¬ dstRoot <+: srcRoot) :
    ∀ (cats : List String) (fs : FS) (fd : Nat) (p : FsPath), srcRoot <+: p →
      (categoryLoop srcRoot dstRoot total fs fd cats).fs.findFile p = fs.findFile p := by
  intro cats
  induction cats with
  | nil => intro fs fd p _; rfl
  | cons c rest ih =>
    intro fs fd p hp
    unfold categoryLoop
    by_cases hd : fs.isDir (srcRoot ++ catPath c) = true
    · rw [if_pos hd]
      rw [ih _ _ _ hp]
      exact step_src_findFile hsep hp
    · rw [if_neg hd]
      exact ih _ _ _ hp

lemma loop_src_isDir (srcRoot dstRoot : FsPath) (total : Nat)
    (hsep : ¬ srcRoot <+: dstRoot ∧ ¬ dstRoot <+: srcRoot) :
    ∀ (cats : List String) (fs : FS) (fd : Nat) (p : FsPath), srcRoot <+: p →
      (categoryLoop srcRoot dstRoot total fs fd cats).fs.isDir p = fs.isDir p := by
  intro cats
  induction cats with
  | nil => intro fs fd p _; rfl
  | cons c rest ih =>
    intro fs fd p hp
    unfold categoryLoop
    by_cases hd : fs.isDir (srcRoot ++ catPath c) = true
    · rw [if_pos hd]
      rw [ih _ _ _ hp]
      exact step_src_isDir hsep hp
    · rw [if_neg hd]
      exact ih _ _ _ hp

lemma loop_src_count (srcRoot dstRoot : FsPath) (total : Nat)
    (hsep : ¬ srcRoot <+: dstRoot ∧ ¬ dstRoot <+: srcRoot) :
    ∀ (cats : List String) (fs : FS) (fd : Nat) (root : FsPath), srcRoot <+: root →
      count_files (categoryLoop srcRoot dstRoot total fs fd cats).fs root
        = count_files fs root := by
  intro cats
  induction cats with
  | nil => intro fs fd root _; rfl
  | cons c rest ih =>
    intro fs fd root hroot
    unfold categoryLoop
    by_cases hd : fs.isDir (srcRoot ++ catPath c) = true
    · rw [if_pos hd]
      rw [ih _ _ _ hroot]
      exact step_src_count hsep hroot
    · rw [if_neg hd]
      exact ih _ _ _ hroot

lemma loop_counts (srcRoot dstRoot : FsPath) (total : Nat)
    (hsep : ¬ srcRoot <+: dstRoot ∧ ¬ dstRoot <+: srcRoot) :
    ∀ (cats : List String) (fs : FS) (fd : Nat),
      (categoryLoop srcRoot dstRoot total fs fd cats).filesDone
          = fd + (cats.map (fun c => count_files fs (srcRoot ++ catPath c))).sum
        ∧ (categoryLoop srcRoot dstRoot total fs fd cats).doneCats
          = cats.filter (fun c => fs.isDir (srcRoot ++ catPath c)) := by
  intro cats
  induction cats with
  | nil => intro fs fd; exact ⟨by simp [categoryLoop], by simp [categoryLoop]⟩
  | cons c rest ih =>
    intro fs fd
    unfold categoryLoop
    by_cases hd : fs.isDir (srcRoot ++ catPath c) = true
    · rw [if_pos hd]
      rcases ih (copy_tree_with_progress fs (srcRoot ++ catPath c)
          (dstRoot ++ catPath c) c fd total).fs (fd + (copy_tree_with_progress fs
          (srcRoot ++ catPath c) (dstRoot ++ catPath c) c fd total).copied) with ⟨h1, h2⟩
      constructor
      · show (categoryLoop srcRoot dstRoot total _ _ rest).filesDone = _
        rw [h1, copy_tree_copied hd]
        have htrans : ∀ c' ∈ rest,
            count_files (copy_tree_with_progress fs (srcRoot ++ catPath c)
              (dstRoot ++ catPath c) c fd total).fs (srcRoot ++ catPath c')
              = count_files fs (srcRoot ++ catPath c') := by
          intro c' _
          exact step_src_count hsep (List.prefix_append _ _)
        rw [List.map_congr_left htrans, List.map_cons, List.sum_cons]
        omega
      · show c :: (categoryLoop srcRoot dstRoot total _ _ rest).doneCats = _
        rw [h2, List.filter_cons, if_pos (by simpa using hd)]
        congr 1
        refine List.filter_congr ?_
        intro c' _
        rw [step_src_isDir hsep (List.prefix_append _ _)]
    · rw [if_neg hd]
      rcases ih fs fd with ⟨h1, h2⟩
      have hzero : count_files fs (srcRoot ++ catPath c) = 0 := by
        unfold count_files
        rw [if_neg hd]
      constructor
      · rw [h1, List.map_cons, List.sum_cons, hzero]
        omega
      · rw [h2, List.filter_cons, if_neg (by simpa using hd)]

lemma copy_tree_events_eq_copied (fs : FS) (src dst : FsPath) (cat : String) (fd tot : Nat) :
    (copy_tree_with_progress fs src dst cat fd tot).events.length
      = (copy_tree_with_progress fs src dst cat fd tot).copied := by
  unfold copy_tree_with_progress
  by_cases hd : fs.isDir src = true
  · rw [if_pos hd, copyFiles_events_length, copyFiles_copied]
  · rw [if_neg hd]
    rfl

lemma categoryLoop_cons_pos_fs {srcRoot dstRoot : FsPath} {total : Nat} {c : String}
    {rest : List String} {fs : FS} {fd : Nat}
    (hd : fs.isDir (srcRoot ++ catPath c) = true) :
    (categoryLoop srcRoot dstRoot total fs fd (c :: rest)).fs
      = (categoryLoop srcRoot dstRoot total
          (copy_tree_with_progress fs (srcRoot ++ catPath c) (dstRoot ++ catPath c)
            c fd total).fs
          (fd + (copy_tree_with_progress fs (srcRoot ++ catPath c) (dstRoot ++ catPath c)
            c fd total).copied) rest).fs := by
  conv_lhs => rw [categoryLoop]
  rw [if_pos hd]

lemma categoryLoop_cons_pos_filesDone {srcRoot dstRoot : FsPath} {total : Nat} {c : String}
    {rest : List String} {fs : FS} {fd : Nat}
    (hd : fs.isDir (srcRoot ++ catPath c) = true) :
    (categoryLoop srcRoot dstRoot total fs fd (c :: rest)).filesDone
      = (categoryLoop srcRoot dstRoot total
          (copy_tree_with_progress fs (srcRoot ++ catPath c) (dstRoot ++ catPath c)
            c fd total).fs
          (fd + (copy_tree_with_progress fs (srcRoot ++ catPath c) (dstRoot ++ catPath c)
            c fd total).copied) rest).filesDone := by
  conv_lhs => rw [categoryLoop]
  rw [if_pos hd]

lemma categoryLoop_cons_pos_events {srcRoot dstRoot : FsPath} {total : Nat} {c : String}
    {rest : List String} {fs : FS} {fd : Nat}
    (hd : fs.isDir (srcRoot ++ catPath c) = true) :
    (categoryLoop srcRoot dstRoot total fs fd (c :: rest)).events
      = (copy_tree_with_progress fs (srcRoot ++ catPath c) (dstRoot ++ catPath c)
            c fd total).events
        ++ (categoryLoop srcRoot dstRoot total
            (copy_tree_with_progress fs (srcRoot ++ catPath c) (dstRoot ++ catPath c)
              c fd total).fs
            (fd + (copy_tree_with_progress fs (srcRoot ++ catPath c) (dstRoot ++ catPath c)
              c fd total).copied) rest).events := by
  conv_lhs => rw [categoryLoop]
  rw [if_pos hd]

lemma loop_events (srcRoot dstRoot : FsPath) (total : Nat) :
    ∀ (cats : List String) (fs : FS) (fd : Nat),
      eventsNumbered (categoryLoop srcRoot dstRoot total fs fd cats).events fd total
        ∧ fd + (categoryLoop srcRoot dstRoot total fs fd cats).events.length
            = (categoryLoop srcRoot dstRoot total fs fd cats).filesDone := by
  intro cats
  induction cats with
  | nil =>
    intro fs fd
    exact ⟨eventsNumbered_nil fd total, by simp [categoryLoop]⟩
  | cons c rest ih =>
    intro fs fd
    by_cases hd : fs.isDir (srcRoot ++ catPath c) = true
    · rcases ih (copy_tree_with_progress fs (srcRoot ++ catPath c)
          (dstRoot ++ catPath c) c fd total).fs (fd + (copy_tree_with_progress fs
          (srcRoot ++ catPath c) (dstRoot ++ catPath c) c fd total).copied) with ⟨h1, h2⟩
      constructor
      · rw [categoryLoop_cons_pos_events hd]
        refine eventsNumbered_append (copy_tree_eventsNumbered _ _ _ _ _ _) ?_
        rw [copy_tree_events_eq_copied]
        exact h1
      · rw [categoryLoop_cons_pos_events hd, categoryLoop_cons_pos_filesDone hd,
          List.length_append, copy_tree_events_eq_copied]
        omega
    · unfold categoryLoop
      rw [if_neg hd]
      exact ih fs fd

/- ----------------------------------------------------------------------
Destination-zone freshness and content characterization
---------------------------------------------------------------------- -/

/-- `zoneFresh fs z` : nothing exists at or below `z`. -/
def zoneFresh (fs : FS) (z : FsPath) : Prop :=
  ∀ p, z <+: p → fs.findFile p = none ∧ fs.isDir p = false

lemma copy_tree_findFile_fine {fs : FS} {src dst p : FsPath} {cat : String} {fd tot : Nat}
    (hp : ∀ rel, rel ≠ [] → p ≠ dst ++ rel) :
    (copy_tree_with_progress fs src dst cat fd tot).fs.findFile p = fs.findFile p := by
  unfold copy_tree_with_progress
  by_cases hd : fs.isDir src = true
  · rw [if_pos hd]
    have hnotin : ∀ rel ∈ (sortedRelFiles fs src).map (fun x => x.1), p ≠ dst ++ rel := by
      intro rel hrel
      rcases List.mem_map.mp hrel with ⟨x, hxmem, hx1⟩
      have hne : x.1 ≠ [] := (mem_relFilesUnder'.mp (mem_sortedRelFiles.mp hxmem)).2
      subst hx1
      exact hp x.1 hne
    rw [copyFiles_findFile_notin _ _ _ _ _ _ _ hnotin]
    exact mkdirP_findFile _ _ _
  · rw [if_neg hd]

lemma catEq_of_zoneHit {ch c' : String} (hch : isValidCategory ch = true)
    (hc' : isValidCategory c' = true) {dstRoot rel rel' : FsPath}
    (h : dstRoot ++ catPath ch ++ rel = dstRoot ++ catPath c' ++ rel') : c' = ch := by
  have h1 : catPath ch ++ rel = catPath c' ++ rel' := by
    refine append_left_cancel_path (a := dstRoot) ?_
    rw [← List.append_assoc, ← List.append_assoc, h]
  exact catPath_cross hc' hch ⟨rel', h1.symm⟩

lemma catEq_of_zonePre {ch c' : String} (hch : isValidCategory ch = true)
    (hc' : isValidCategory c' = true) {dstRoot x : FsPath}
    (h : dstRoot ++ catPath c' <+: dstRoot ++ catPath ch ++ x) : c' = ch := by
  rw [List.append_assoc] at h
  exact catPath_cross hc' hch (pre_cancel_left h)

lemma step_zoneFresh {fs : FS} {srcRoot dstRoot : FsPath} {ch c' cat : String} {fd tot : Nat}
    (hch : isValidCategory ch = true) (hc' : isValidCategory c' = true) (hne : c' ≠ ch)
    (hzf : zoneFresh fs (dstRoot ++ catPath c')) :
    zoneFresh (copy_tree_with_progress fs (srcRoot ++ catPath ch) (dstRoot ++ catPath ch)
      cat fd tot).fs (dstRoot ++ catPath c') := by
  intro p hp
  constructor
  · have hfine : ∀ rel, rel ≠ [] → p ≠ (dstRoot ++ catPath ch) ++ rel := by
      intro rel hrel hx
      exact hne (catEq_of_zonePre hch hc' (hx ▸ hp))
    rw [copy_tree_findFile_fine hfine]
    exact (hzf p hp).1
  · cases hout : (copy_tree_with_progress fs (srcRoot ++ catPath ch) (dstRoot ++ catPath ch)
        cat fd tot).fs.isDir p with
    | false => rfl
    | true =>
      exfalso
      have hmem : p ∈ (copy_tree_with_progress fs (srcRoot ++ catPath ch)
          (dstRoot ++ catPath ch) cat fd tot).fs.dirs := by
        simpa [FS.isDir, contains_iff_mem] using hout
      rcases copy_tree_mem_dirs hmem with h1 | ⟨x, hx⟩
      · have : fs.isDir p = true := by simpa [FS.isDir, contains_iff_mem] using h1
        rw [(hzf p hp).2] at this
        cases this
      · exact hne (catEq_of_zonePre hch hc' (hp.trans hx))

lemma loop_zone_isDir_false (srcRoot dstRoot : FsPath) (total : Nat) :
    ∀ (cats : List String) (fs : FS) (fd : Nat) (c : String),
      (∀ c' ∈ cats, isValidCategory c' = true) → isValidCategory c = true →
      c ∉ cats →
      zoneFresh fs (dstRoot ++ catPath c) →
      zoneFresh (categoryLoop srcRoot dstRoot total fs fd cats).fs
        (dstRoot ++ catPath c) := by
  intro cats
  induction cats with
  | nil => intro fs fd c _ _ _ h; exact h
  | cons ch rest ih =>
    intro fs fd c hv hc hnot hzf
    have hch : isValidCategory ch = true := hv ch (List.mem_cons_self _ _)
    have hne : c ≠ ch := fun hx => hnot (hx ▸ List.mem_cons_self _ _)
    have hnot' : c ∉ rest := fun hx => hnot (List.mem_cons_of_mem _ hx)
    have hv' : ∀ c' ∈ rest, isValidCategory c' = true :=
      fun c' hc' => hv c' (List.mem_cons_of_mem _ hc')
    by_cases hd : fs.isDir (srcRoot ++ catPath ch) = true
    · have hstep := @step_zoneFresh fs srcRoot dstRoot ch c ch fd total hch hc hne hzf
      have := ih (copy_tree_with_progress fs (srcRoot ++ catPath ch)
        (dstRoot ++ catPath ch) ch fd total).fs
        (fd + (copy_tree_with_progress fs (srcRoot ++ catPath ch)
          (dstRoot ++ catPath ch) ch fd total).copied) c hv' hc hnot' hstep
      intro p hp
      rw [@categoryLoop_cons_pos_fs srcRoot dstRoot total ch rest fs fd hd]
      exact this p hp
    · intro p hp
      unfold categoryLoop
      rw [if_neg hd]
      exact ih fs fd c hv' hc hnot' hzf p hp

/-- Content of the destination zone after the category loop: each requested
category's subtree of the destination mirrors the source subtree if the
source category directory existed, and stays empty otherwise. -/
lemma loop_content (srcRoot dstRoot : FsPath) (total : Nat)
    (hsep : ¬ srcRoot <+: dstRoot ∧ ¬ dstRoot <+: srcRoot) :
    ∀ (cats : List String) (fs : FS) (fd : Nat),
      (∀ c ∈ cats, isValidCategory c = true) → cats.Nodup → fs.NodupKeys →
      (∀ c ∈ cats, zoneFresh fs (dstRoot ++ catPath c)) →
      (∀ c ∈ cats, fs.isDir (srcRoot ++ catPath c) = true →
        fs.findFile (srcRoot ++ catPath c) = none) →
      ∀ c ∈ cats,
        ((categoryLoop srcRoot dstRoot total fs fd cats).fs.isDir (dstRoot ++ catPath c)
            = fs.isDir (srcRoot ++ catPath c))
        ∧ ∀ rel, (categoryLoop srcRoot dstRoot total fs fd cats).fs.findFile
              (dstRoot ++ catPath c ++ rel)
            = (if fs.isDir (srcRoot ++ catPath c) = true
                then fs.findFile (srcRoot ++ catPath c ++ rel) else none) := by
  intro cats
  induction cats with
  | nil => intro fs fd _ _ _ _ _ c hc; simp at hc
  | cons ch rest ih =>
    intro fs fd hv hnodup hnd hzf hsdf c hc
    have hch : isValidCategory ch = true := hv ch (List.mem_cons_self _ _)
    have hchnot : ch ∉ rest := (List.nodup_cons.mp hnodup).1
    have hv' : ∀ c' ∈ rest, isValidCategory c' = true :=
      fun c' hc' => hv c' (List.mem_cons_of_mem _ hc')
    rcases List.mem_cons.mp hc with rfl | hcrest
    · -- the category at the head of the list
      by_cases hd : fs.isDir (srcRoot ++ catPath c) = true
      · -- present in the source
        constructor
        · rw [@categoryLoop_cons_pos_fs srcRoot dstRoot total c rest fs fd hd, hd]
          exact loop_isDir_mono (copy_tree_isDir_dst hd)
        · intro rel
          rw [if_pos hd, @categoryLoop_cons_pos_fs srcRoot dstRoot total c rest fs fd hd]
          have hframe : ∀ c' ∈ rest, ∀ rel', rel' ≠ [] →
              dstRoot ++ catPath c ++ rel ≠ dstRoot ++ catPath c' ++ rel' := by
            intro c' hc' rel' _ hx
            have : c' = c := catEq_of_zoneHit hch (hv' c' hc') hx
            exact hchnot (this ▸ hc')
          rw [loop_findFile_frame _ _ _ _ _ _ _ hframe]
          rcases List.eq_nil_or_concat rel with rfl | -
          · -- the category directory itself
            rw [List.append_nil, List.append_nil]
            have hfine : ∀ rel', rel' ≠ [] →
                dstRoot ++ catPath c ≠ (dstRoot ++ catPath c) ++ rel' := by
              intro rel' hne
              exact ne_append_of_ne_nil hne
            rw [copy_tree_findFile_fine hfine]
            rw [(hzf c (List.mem_cons_self _ _) _ List.prefix_rfl).1]
            rw [hsdf c (List.mem_cons_self _ _) hd]
          · by_cases hrel : rel = []
            · subst hrel
              rw [List.append_nil, List.append_nil]
              have hfine : ∀ rel', rel' ≠ [] →
                  dstRoot ++ catPath c ≠ (dstRoot ++ catPath c) ++ rel' := by
                intro rel' hne
                exact ne_append_of_ne_nil hne
              rw [copy_tree_findFile_fine hfine]
              rw [(hzf c (List.mem_cons_self _ _) _ List.prefix_rfl).1]
              rw [hsdf c (List.mem_cons_self _ _) hd]
            · cases hff : fs.findFile (srcRoot ++ catPath c ++ rel) with
              | some d =>
                have hmem : ((srcRoot ++ catPath c) ++ rel, d) ∈ fs.files :=
                  findFile_some_mem hff
                exact copy_tree_findFile_mem hd hnd hmem hrel
              | none =>
                have hnk : ∀ d, ((srcRoot ++ catPath c) ++ rel, d) ∉ fs.files :=
                  findFile_none_notkey hff
                rw [copy_tree_findFile_notkey hnk]
                exact (hzf c (List.mem_cons_self _ _) _
                  (List.prefix_append (dstRoot ++ catPath c) rel)).1
      · -- absent from the source
        have hdf : fs.isDir (srcRoot ++ catPath c) = false := by
          cases hx : fs.isDir (srcRoot ++ catPath c)
          · rfl
          · exact absurd hx hd
        have hloopneg : categoryLoop srcRoot dstRoot total fs fd (c :: rest)
            = categoryLoop srcRoot dstRoot total fs fd rest := by
          conv_lhs => rw [categoryLoop]
          rw [if_neg hd]
        have hzfc := loop_zone_isDir_false srcRoot dstRoot total rest fs fd c
          hv' hch hchnot (hzf c (List.mem_cons_self _ _))
        constructor
        · rw [hloopneg, hdf]
          exact (hzfc _ List.prefix_rfl).2
        · intro rel
          rw [hloopneg, if_neg hd]
          exact (hzfc _ (List.prefix_append (dstRoot ++ catPath c) rel)).1
    · -- a category further down the list
      by_cases hd : fs.isDir (srcRoot ++ catPath ch) = true
      · have hout := @categoryLoop_cons_pos_fs srcRoot dstRoot total ch rest fs fd hd
        have hnd' : (copy_tree_with_progress fs (srcRoot ++ catPath ch)
            (dstRoot ++ catPath ch) ch fd total).fs.NodupKeys :=
          copy_tree_nodupKeys _ _ _ _ _ hnd
        have hzf' : ∀ c' ∈ rest, zoneFresh (copy_tree_with_progress fs
            (srcRoot ++ catPath ch) (dstRoot ++ catPath ch) ch fd total).fs
            (dstRoot ++ catPath c') := by
          intro c' hc'
          have hne : c' ≠ ch := fun hx => hchnot (hx ▸ hc')
          exact @step_zoneFresh fs srcRoot dstRoot ch c' ch fd total hch
            (hv' c' hc') hne (hzf c' (List.mem_cons_of_mem _ hc'))
        have hsdf' : ∀ c' ∈ rest, (copy_tree_with_progress fs (srcRoot ++ catPath ch)
            (dstRoot ++ catPath ch) ch fd total).fs.isDir (srcRoot ++ catPath c') = true →
            (copy_tree_with_progress fs (srcRoot ++ catPath ch)
              (dstRoot ++ catPath ch) ch fd total).fs.findFile (srcRoot ++ catPath c')
              = none := by
          intro c' hc' hdir
          rw [step_src_isDir hsep (List.prefix_append _ _)] at hdir
          rw [step_src_findFile hsep (List.prefix_append _ _)]
          exact hsdf c' (List.mem_cons_of_mem _ hc') hdir
        rcases ih (copy_tree_with_progress fs (srcRoot ++ catPath ch)
            (dstRoot ++ catPath ch) ch fd total).fs
            (fd + (copy_tree_with_progress fs (srcRoot ++ catPath ch)
              (dstRoot ++ catPath ch) ch fd total).copied)
            hv' (List.nodup_cons.mp hnodup).2 hnd' hzf' hsdf' c hcrest with ⟨h1, h2⟩
        constructor
        · rw [hout, h1]
          exact step_src_isDir hsep (List.prefix_append _ _)
        · intro rel
          rw [hout, h2 rel, step_src_isDir hsep (List.prefix_append _ _)]
          by_cases hdir : fs.isDir (srcRoot ++ catPath c) = true
          · rw [if_pos hdir, if_pos hdir]
            refine step_src_findFile hsep ?_
            exact (List.prefix_append srcRoot (catPath c)).trans
              (List.prefix_append (srcRoot ++ catPath c) rel)
          · rw [if_neg hdir, if_neg hdir]
      · have hloopneg : categoryLoop srcRoot dstRoot total fs fd (ch :: rest)
            = categoryLoop srcRoot dstRoot total fs fd rest := by
          conv_lhs => rw [categoryLoop]
          rw [if_neg hd]
        rw [hloopneg]
        exact ih fs fd hv' (List.nodup_cons.mp hnodup).2 hnd
          (fun c' hc' => hzf c' (List.mem_cons_of_mem _ hc'))
          (fun c' hc' => hsdf c' (List.mem_cons_of_mem _ hc')) c hcrest

/- ----------------------------------------------------------------------
Claim theorems
---------------------------------------------------------------------- -/

/-- C5 counterexample: the claim says the detector returns "stock" exactly
when `miyoo/app` exists (and the Onion marker does not); but on a card whose
top level holds only a `miyoo` directory — no `miyoo/app` and no
`.tmp_update` — the code still returns "stock", where the claim requires
"unknown". -/
theorem C5_counterexample :
    detect_sd_state ⟨[], [[], ["miyoo"]], [], []⟩ [] = "stock"
      ∧ FS.isDir ⟨[], [[], ["miyoo"]], [], []⟩ ([] ++ [".tmp_update"]) = false
      ∧ FS.isDir ⟨[], [[], ["miyoo"]], [], []⟩ ([] ++ ["miyoo", "app"]) = false := by
  decide

/-- C5 (amended): for every mount root, the detector returns "onion" exactly
when the `.tmp_update` marker directory is present; returns "stock" exactly
when that marker is absent and either `miyoo/app` or the top-level `miyoo`
directory is present; and returns "unknown" in all other cases. -/
theorem C5_detect_state_characterization (fs : FS) (sd : FsPath) :
    (detect_sd_state fs sd = "onion" ↔ fs.isDir (sd ++ [".tmp_update"]) = true)
    ∧ (detect_sd_state fs sd = "stock" ↔ fs.isDir (sd ++ [".tmp_update"]) = false
        ∧ (fs.isDir (sd ++ ["miyoo", "app"]) = true ∨ fs.isDir (sd ++ ["miyoo"]) = true))
    ∧ (detect_sd_state fs sd = "unknown" ↔ fs.isDir (sd ++ [".tmp_update"]) = false
        ∧ fs.isDir (sd ++ ["miyoo", "app"]) = false
        ∧ fs.isDir (sd ++ ["miyoo"]) = false) := by
  unfold detect_sd_state
  cases h1 : fs.isDir (sd ++ [".tmp_update"]) <;>
    cases h2 : fs.isDir (sd ++ ["miyoo", "app"]) <;>
      cases h3 : fs.isDir (sd ++ ["miyoo"]) <;>
        simp [h1, h2, h3]

/-- A candidate version file produces a version string when it is a regular
file, reading it does not raise, and its stripped content is non-empty. -/
def versionGood (fs : FS) (c : FsPath) : Prop :=
  fs.isFile c = true ∧ ∃ d, fs.readData c = some d ∧ d.text.trim ≠ ""

lemma versionFrom_cons_notfile {fs : FS} {c : FsPath} {rest : List FsPath}
    (hf : fs.isFile c = false) :
    versionFrom fs (c :: rest) = versionFrom fs rest := by
  conv_lhs => rw [versionFrom]
  rw [if_neg (by simp [hf])]

lemma versionFrom_cons_none {fs : FS} {c : FsPath} {rest : List FsPath}
    (hf : fs.isFile c = true) (hrd : fs.readData c = none) :
    versionFrom fs (c :: rest) = versionFrom fs rest := by
  conv_lhs => rw [versionFrom]
  rw [if_pos hf, hrd]

lemma versionFrom_cons_some {fs : FS} {c : FsPath} {rest : List FsPath} {d : FileData}
    (hf : fs.isFile c = true) (hrd : fs.readData c = some d) :
    versionFrom fs (c :: rest)
      = if d.text.trim ≠ "" then d.text.trim else versionFrom fs rest := by
  conv_lhs => rw [versionFrom]
  rw [if_pos hf, hrd]

lemma versionFrom_spec (fs : FS) :
    ∀ l : List FsPath,
      (versionFrom fs l = "" ∧ ∀ c ∈ l, ¬ versionGood fs c)
      ∨ ∃ pre c post, l = pre ++ c :: post ∧ versionGood fs c
          ∧ (∀ c' ∈ pre, ¬ versionGood fs c')
          ∧ ∃ d, fs.readData c = some d ∧ versionFrom fs l = d.text.trim
              ∧ d.text.trim ≠ "" := by
  intro l
  induction l with
  | nil =>
    left
    exact ⟨rfl, by simp⟩
  | cons c rest ih =>
    by_cases hf : fs.isFile c = true
    · cases hrd : fs.readData c with
      | none =>
        have hng : ¬ versionGood fs c := by
          rintro ⟨-, d, hd, -⟩
          rw [hrd] at hd
          cases hd
        rcases ih with ⟨h1, h2⟩ | ⟨pre, c', post, hl, hg, hpre, d, hd, hv, ht⟩
        · left
          refine ⟨by rw [versionFrom_cons_none hf hrd]; exact h1, ?_⟩
          intro x hx
          rcases List.mem_cons.mp hx with rfl | hx
          · exact hng
          · exact h2 x hx
        · right
          refine ⟨c :: pre, c', post, by rw [hl, List.cons_append], hg, ?_, d, hd,
            by rw [versionFrom_cons_none hf hrd]; exact hv, ht⟩
          intro x hx
          rcases List.mem_cons.mp hx with rfl | hx
          · exact hng
          · exact hpre x hx
      | some d =>
        by_cases ht : d.text.trim ≠ ""
        · right
          refine ⟨[], c, rest, rfl, ⟨hf, d, hrd, ht⟩, by simp, d, hrd, ?_, ht⟩
          rw [versionFrom_cons_some hf hrd, if_pos ht]
        · have hng : ¬ versionGood fs c := by
            rintro ⟨-, d', hd', ht'⟩
            rw [hrd] at hd'
            cases hd'
            exact ht' (by simpa using ht)
          have hstep : versionFrom fs (c :: rest) = versionFrom fs rest := by
            rw [versionFrom_cons_some hf hrd, if_neg ht]
          rcases ih with ⟨h1, h2⟩ | ⟨pre, c', post, hl, hg, hpre, d', hd', hv, ht'⟩
          · left
            refine ⟨by rw [hstep]; exact h1, ?_⟩
            intro x hx
            rcases List.mem_cons.mp hx with rfl | hx
            · exact hng
            · exact h2 x hx
          · right
            refine ⟨c :: pre, c', post, by rw [hl, List.cons_append], hg, ?_, d', hd',
              by rw [hstep]; exact hv, ht'⟩
            intro x hx
            rcases List.mem_cons.mp hx with rfl | hx
            · exact hng
            · exact hpre x hx
    · have hf' : fs.isFile c = false := by
        cases hx : fs.isFile c
        · rfl
        · exact absurd hx hf
      have hng : ¬ versionGood fs c := fun hx => hf hx.1
      rcases ih with ⟨h1, h2⟩ | ⟨pre, c', post, hl, hg, hpre, d, hd, hv, ht⟩
      · left
        refine ⟨by rw [versionFrom_cons_notfile hf']; exact h1, ?_⟩
        intro x hx
        rcases List.mem_cons.mp hx with rfl | hx
        · exact hng
        · exact h2 x hx
      · right
        refine ⟨c :: pre, c', post, by rw [hl, List.cons_append], hg, ?_, d, hd,
          by rw [versionFrom_cons_notfile hf']; exact hv, ht⟩
        intro x hx
        rcases List.mem_cons.mp hx with rfl | hx
        · exact hng
        · exact hpre x hx

/-- C6: for every mount root and filesystem state the version probe is a
total function (so it never raises) and returns the first non-empty
stripped content found among the known candidate version files — skipping
candidates that are missing, unreadable, or blank — or the empty string
when no candidate qualifies. -/
theorem C6_version_probe (fs : FS) (sd : FsPath) :
    (detect_onion_version fs sd = ""
        ∧ ∀ c ∈ versionCandidates sd, ¬ versionGood fs c)
    ∨ ∃ pre c post, versionCandidates sd = pre ++ c :: post ∧ versionGood fs c
        ∧ (∀ c' ∈ pre, ¬ versionGood fs c')
        ∧ ∃ d, fs.readData c = some d ∧ detect_onion_version fs sd = d.text.trim
            ∧ d.text.trim ≠ "" :=
  versionFrom_spec fs (versionCandidates sd)

/-- C7: when both mount roots exist but none of the five recognized
stock-side source directories (the two save-remap directories and the three
shared directories) is present, migration reports success with the
"nothing to migrate" message and leaves the filesystem untouched: no
directory is created, no file is copied, no event is emitted. -/
theorem C7_migrate_nothing (fs : FS) (stockMount onionMount : FsPath)
    (hs : fs.isDir stockMount = true) (ho : fs.isDir onionMount = true)
    (hmap : ∀ m ∈ STOCK_TO_ONION_MAPPINGS, fs.isDir (stockMount ++ m.1) = false)
    (hshared : ∀ dn ∈ sharedDirs, fs.isDir (stockMount ++ [dn]) = false) :
    migrate_stock_to_onion fs stockMount onionMount
      = ⟨⟨true, "Nothing to migrate: no recognised data found on stock SD."⟩, fs, []⟩ := by
  unfold migrate_stock_to_onion
  rw [if_neg (by simp [hs]), if_neg (by simp [ho])]
  have hjobs : buildJobs fs stockMount onionMount = [] := by
    unfold buildJobs
    rw [List.filterMap_eq_nil_iff.mpr, List.filterMap_eq_nil_iff.mpr, List.append_nil]
    · intro dn hdn
      rw [if_neg (by simp [hshared dn hdn])]
    · intro m hm
      rw [if_neg (by simp [hmap m hm])]
  rw [if_pos hjobs]

/-- C3: any request that contains at least one category key outside the
static category table makes both `create_backup` and `restore_backup`
return a failure before any side effect: the filesystem is unchanged and no
progress event is emitted. -/
theorem C3_unknown_category_no_side_effects
    (fs : FS) (sdMount backupDir backupPath target : FsPath) (cats : List String)
    (descr tsDir tsIso : String) (bad : String) (hbad : bad ∈ cats)
    (hinvalid : isValidCategory bad = false) :
    ((create_backup fs sdMount backupDir cats descr tsDir tsIso).result.success = false
      ∧ (create_backup fs sdMount backupDir cats descr tsDir tsIso).fs = fs
      ∧ (create_backup fs sdMount backupDir cats descr tsDir tsIso).events = [])
    ∧ ((restore_backup fs backupPath target cats).result.success = false
      ∧ (restore_backup fs backupPath target cats).fs = fs
      ∧ (restore_backup fs backupPath target cats).events = []) := by
  have hne : (cats.filter (fun c => !isValidCategory c)) ≠ [] :=
    List.ne_nil_of_mem (List.mem_filter.mpr ⟨hbad, by simp [hinvalid]⟩)
  constructor
  · unfold create_backup
    by_cases h1 : (!fs.isDir sdMount) = true
    · rw [if_pos h1]
      exact ⟨rfl, rfl, rfl⟩
    · rw [if_neg h1, if_pos hne]
      exact ⟨rfl, rfl, rfl⟩
  · unfold restore_backup
    by_cases h1 : (!fs.isDir backupPath) = true
    · rw [if_pos h1]
      exact ⟨rfl, rfl, rfl⟩
    · rw [if_neg h1]
      by_cases h2 : (!fs.isDir target) = true
      · rw [if_pos h2]
        exact ⟨rfl, rfl, rfl⟩
      · rw [if_neg h2, if_pos hne]
        exact ⟨rfl, rfl, rfl⟩

/-- Witness for C7 at a concrete two-mount filesystem with no recognized
stock data. -/
theorem C7_migrate_nothing_witness :
    migrate_stock_to_onion ⟨[], [[], ["s"], ["o"]], [], []⟩ ["s"] ["o"]
      = ⟨⟨true, "Nothing to migrate: no recognised data found on stock SD."⟩,
          ⟨[], [[], ["s"], ["o"]], [], []⟩, []⟩ :=
  C7_migrate_nothing ⟨[], [[], ["s"], ["o"]], [], []⟩ ["s"] ["o"]
    (by decide) (by decide) (by decide) (by decide)

/-- Witness for C3 at a concrete filesystem and the unknown key "nope". -/
theorem C3_unknown_category_no_side_effects_witness :
    ((create_backup ⟨[], [[], ["sd"]], [], []⟩ ["sd"] ["bk"] ["roms", "nope"]
        "" "TS" "ISO").result.success = false
      ∧ (create_backup ⟨[], [[], ["sd"]], [], []⟩ ["sd"] ["bk"] ["roms", "nope"]
          "" "TS" "ISO").fs = ⟨[], [[], ["sd"]], [], []⟩
      ∧ (create_backup ⟨[], [[], ["sd"]], [], []⟩ ["sd"] ["bk"] ["roms", "nope"]
          "" "TS" "ISO").events = [])
    ∧ ((restore_backup ⟨[], [[], ["sd"]], [], []⟩ ["bk"] ["sd"]
          ["roms", "nope"]).result.success = false
      ∧ (restore_backup ⟨[], [[], ["sd"]], [], []⟩ ["bk"] ["sd"]
          ["roms", "nope"]).fs = ⟨[], [[], ["sd"]], [], []⟩
      ∧ (restore_backup ⟨[], [[], ["sd"]], [], []⟩ ["bk"] ["sd"]
          ["roms", "nope"]).events = []) :=
  C3_unknown_category_no_side_effects ⟨[], [[], ["sd"]], [], []⟩ ["sd"] ["bk"] ["bk"] ["sd"]
    ["roms", "nope"] "" "TS" "ISO" "nope" (by decide) (by decide)

/- ----------------------------------------------------------------------
The successful branch of create_backup
---------------------------------------------------------------------- -/

lemma create_backup_validations (fs : FS) (sdMount backupDir : FsPath)
    (cats : List String) (descr tsDir tsIso : String)
    (hsd : fs.isDir sdMount = true)
    (hvalid : ∀ c ∈ cats, isValidCategory c = true)
    (hne : cats ≠ []) :
    create_backup fs sdMount backupDir cats descr tsDir tsIso =
      (let state := detect_sd_state fs sdMount
       let version := detect_onion_version fs sdMount
       let backupPath := backupDir ++ [backupDirName fs sdMount tsDir]
       let fs0 := fs.mkdirP backupPath
       let totalFiles := (cats.map (fun c => count_files fs0 (sdMount ++ catPath c))).sum
       let out := categoryLoop sdMount backupPath totalFiles fs0 0 cats
       let metadata : BackupMetadata :=
         ⟨tsIso, out.doneCats, descr, state, version, out.filesDone⟩
       let infoPath := backupPath ++ ["backup_info.json"]
       let fsFinal :=
         if out.fs.unwritable.contains infoPath then out.fs
         else { out.fs with files := setFile out.fs.files infoPath (FileData.sidecar metadata) }
       ⟨⟨true, backupPath,
         "Backup completed: " ++ toString out.filesDone ++ " files in " ++
           toString out.doneCats.length ++ " categories."⟩, fsFinal, out.events⟩) := by
  have hfil : (cats.filter (fun c => !isValidCategory c)) = [] :=
    List.filter_eq_nil_iff.mpr (fun c hc => by simp [hvalid c hc])
  unfold create_backup
  rw [if_neg (by simp [hsd]), if_neg (not_ne_iff.mpr hfil), if_neg hne]

lemma create_backup_success_result (fs : FS) (sdMount backupDir : FsPath)
    (cats : List String) (descr tsDir tsIso : String)
    (hsd : fs.isDir sdMount = true)
    (hvalid : ∀ c ∈ cats, isValidCategory c = true)
    (hne : cats ≠ []) :
    (create_backup fs sdMount backupDir cats descr tsDir tsIso).result =
      ⟨true, backupDir ++ [backupDirName fs sdMount tsDir],
        "Backup completed: "
          ++ toString (categoryLoop sdMount (backupDir ++ [backupDirName fs sdMount tsDir])
        ((cats.map (fun c => count_files
          (fs.mkdirP (backupDir ++ [backupDirName fs sdMount tsDir]))
          (sdMount ++ catPath c))).sum)
        (fs.mkdirP (backupDir ++ [backupDirName fs sdMount tsDir])) 0 cats).filesDone
          ++ " files in "
          ++ toString (categoryLoop sdMount (backupDir ++ [backupDirName fs sdMount tsDir])
        ((cats.map (fun c => count_files
          (fs.mkdirP (backupDir ++ [backupDirName fs sdMount tsDir]))
          (sdMount ++ catPath c))).sum)
        (fs.mkdirP (backupDir ++ [backupDirName fs sdMount tsDir])) 0 cats).doneCats.length
          ++ " categories."⟩ := by
  rw [create_backup_validations fs sdMount backupDir cats descr tsDir tsIso hsd hvalid hne]

lemma create_backup_success_events (fs : FS) (sdMount backupDir : FsPath)
    (cats : List String) (descr tsDir tsIso : String)
    (hsd : fs.isDir sdMount = true)
    (hvalid : ∀ c ∈ cats, isValidCategory c = true)
    (hne : cats ≠ []) :
    (create_backup fs sdMount backupDir cats descr tsDir tsIso).events =
      (categoryLoop sdMount (backupDir ++ [backupDirName fs sdMount tsDir])
        ((cats.map (fun c => count_files
          (fs.mkdirP (backupDir ++ [backupDirName fs sdMount tsDir]))
          (sdMount ++ catPath c))).sum)
        (fs.mkdirP (backupDir ++ [backupDirName fs sdMount tsDir])) 0 cats).events := by
  rw [create_backup_validations fs sdMount backupDir cats descr tsDir tsIso hsd hvalid hne]

lemma create_backup_success_fs (fs : FS) (sdMount backupDir : FsPath)
    (cats : List String) (descr tsDir tsIso : String)
    (hsd : fs.isDir sdMount = true)
    (hvalid : ∀ c ∈ cats, isValidCategory c = true)
    (hne : cats ≠ []) :
    (create_backup fs sdMount backupDir cats descr tsDir tsIso).fs =
      (if (categoryLoop sdMount (backupDir ++ [backupDirName fs sdMount tsDir])
        ((cats.map (fun c => count_files
          (fs.mkdirP (backupDir ++ [backupDirName fs sdMount tsDir]))
          (sdMount ++ catPath c))).sum)
        (fs.mkdirP (backupDir ++ [backupDirName fs sdMount tsDir])) 0 cats).fs.unwritable.contains
          (backupDir ++ [backupDirName fs sdMount tsDir] ++ ["backup_info.json"])
        then (categoryLoop sdMount (backupDir ++ [backupDirName fs sdMount tsDir])
        ((cats.map (fun c => count_files
          (fs.mkdirP (backupDir ++ [backupDirName fs sdMount tsDir]))
          (sdMount ++ catPath c))).sum)
        (fs.mkdirP (backupDir ++ [backupDirName fs sdMount tsDir])) 0 cats).fs
        else { (categoryLoop sdMount (backupDir ++ [backupDirName fs sdMount tsDir])
        ((cats.map (fun c => count_files
          (fs.mkdirP (backupDir ++ [backupDirName fs sdMount tsDir]))
          (sdMount ++ catPath c))).sum)
        (fs.mkdirP (backupDir ++ [backupDirName fs sdMount tsDir])) 0 cats).fs with
          files := setFile (categoryLoop sdMount (backupDir ++ [backupDirName fs sdMount tsDir])
        ((cats.map (fun c => count_files
          (fs.mkdirP (backupDir ++ [backupDirName fs sdMount tsDir]))
          (sdMount ++ catPath c))).sum)
        (fs.mkdirP (backupDir ++ [backupDirName fs sdMount tsDir])) 0 cats).fs.files
            (backupDir ++ [backupDirName fs sdMount tsDir] ++ ["backup_info.json"])
            (FileData.sidecar ⟨tsIso,
              (categoryLoop sdMount (backupDir ++ [backupDirName fs sdMount tsDir])
        ((cats.map (fun c => count_files
          (fs.mkdirP (backupDir ++ [backupDirName fs sdMount tsDir]))
          (sdMount ++ catPath c))).sum)
        (fs.mkdirP (backupDir ++ [backupDirName fs sdMount tsDir])) 0 cats).doneCats,
              descr, detect_sd_state fs sdMount, detect_onion_version fs sdMount,
              (categoryLoop sdMount (backupDir ++ [backupDirName fs sdMount tsDir])
        ((cats.map (fun c => count_files
          (fs.mkdirP (backupDir ++ [backupDirName fs sdMount tsDir]))
          (sdMount ++ catPath c))).sum)
        (fs.mkdirP (backupDir ++ [backupDirName fs sdMount tsDir])) 0 cats).filesDone⟩) }) := by
  rw [create_backup_validations fs sdMount backupDir cats descr tsDir tsIso hsd hvalid hne]

lemma findFile_update_setFile (fs : FS) (p : FsPath) (d : FileData) :
    ({ fs with files := setFile fs.files p d } : FS).findFile p = some d := by
  show ((setFile fs.files p d).find? (fun f => f.1 == p)).map (fun f => f.2) = some d
  exact find?_setFile_self _ _ _

lemma isDir_mkdirP_of_not_pre {fs : FS} {p q : FsPath} (h : ¬ q <+: p) :
    (fs.mkdirP p).isDir q = fs.isDir q := by
  cases hd : fs.isDir q with
  | true => exact isDir_mkdirP.mpr (Or.inl hd)
  | false =>
    cases hd2 : (fs.mkdirP p).isDir q with
    | false => rfl
    | true =>
      rcases isDir_mkdirP.mp hd2 with h1 | h1
      · rw [hd] at h1
        cases h1
      · exact absurd h1 h

lemma count_files_mkdirP_of_not_pre {fs : FS} {p q : FsPath} (h : ¬ q <+: p) :
    count_files (fs.mkdirP p) q = count_files fs q := by
  unfold count_files
  rw [isDir_mkdirP_of_not_pre h]
  rfl

/-- C8: when every validation passes but the sidecar file is unwritable,
`create_backup` still reports success and returns the snapshot path — a
metadata write failure never flips a completed backup to a failure. -/
theorem C8_sidecar_write_failure_still_success
    (fs : FS) (sdMount backupDir : FsPath) (cats : List String)
    (descr tsDir tsIso : String)
    (hsd : fs.isDir sdMount = true)
    (hvalid : ∀ c ∈ cats, isValidCategory c = true)
    (hne : cats ≠ [])
    (hunw : (backupDir ++ [backupDirName fs sdMount tsDir] ++ ["backup_info.json"])
        ∈ fs.unwritable) :
    (create_backup fs sdMount backupDir cats descr tsDir tsIso).result.success = true
    ∧ (create_backup fs sdMount backupDir cats descr tsDir tsIso).result.backupPath
        = backupDir ++ [backupDirName fs sdMount tsDir]
    ∧ (create_backup fs sdMount backupDir cats descr tsDir tsIso).fs
        = (categoryLoop sdMount (backupDir ++ [backupDirName fs sdMount tsDir])
        ((cats.map (fun c => count_files
          (fs.mkdirP (backupDir ++ [backupDirName fs sdMount tsDir]))
          (sdMount ++ catPath c))).sum)
        (fs.mkdirP (backupDir ++ [backupDirName fs sdMount tsDir])) 0 cats).fs := by
  refine ⟨?_, ?_, ?_⟩
  · rw [create_backup_success_result fs sdMount backupDir cats descr tsDir tsIso hsd hvalid hne]
  · rw [create_backup_success_result fs sdMount backupDir cats descr tsDir tsIso hsd hvalid hne]
  · rw [create_backup_success_fs fs sdMount backupDir cats descr tsDir tsIso hsd hvalid hne]
    have hunw2 : (categoryLoop sdMount (backupDir ++ [backupDirName fs sdMount tsDir])
        ((cats.map (fun c => count_files
          (fs.mkdirP (backupDir ++ [backupDirName fs sdMount tsDir]))
          (sdMount ++ catPath c))).sum)
        (fs.mkdirP (backupDir ++ [backupDirName fs sdMount tsDir])) 0 cats).fs.unwritable = fs.unwritable := by
      rw [loop_unwritable, mkdirP_unwritable]
    rw [if_pos (by rw [hunw2]; exact contains_iff_mem.mpr hunw)]

/-- Witness for C8: a backup of "roms" where the sidecar path is marked
unwritable still succeeds and returns the snapshot path. -/
theorem C8_sidecar_write_failure_still_success_witness :
    (create_backup
        ⟨[(["sd", "Roms", "g.gba"], FileData.bytes "G")],
          [[], ["sd"], ["sd", "Roms"], ["bk"]], [],
          [["bk", "TS_unknown", "backup_info.json"]]⟩
        ["sd"] ["bk"] ["roms"] "d" "TS" "ISO").result.success = true
    ∧ (create_backup
        ⟨[(["sd", "Roms", "g.gba"], FileData.bytes "G")],
          [[], ["sd"], ["sd", "Roms"], ["bk"]], [],
          [["bk", "TS_unknown", "backup_info.json"]]⟩
        ["sd"] ["bk"] ["roms"] "d" "TS" "ISO").result.backupPath
      = ["bk"] ++ [backupDirName
          ⟨[(["sd", "Roms", "g.gba"], FileData.bytes "G")],
            [[], ["sd"], ["sd", "Roms"], ["bk"]], [],
            [["bk", "TS_unknown", "backup_info.json"]]⟩ ["sd"] "TS"] :=
  ⟨(C8_sidecar_write_failure_still_success _ ["sd"] ["bk"] ["roms"] "d" "TS" "ISO"
      (by decide) (by decide) (by decide) (by decide)).1,
    (C8_sidecar_write_failure_still_success _ ["sd"] ["bk"] ["roms"] "d" "TS" "ISO"
      (by decide) (by decide) (by decide) (by decide)).2.1⟩

/-- C2: for a successful `create_backup` whose sidecar write succeeds and
whose backup root is disjoint from the SD mount, the written sidecar
records exactly the requested categories whose source directory existed
(absent ones are excluded), and `total_files` equals the sum of the
per-category source file counts (absent categories contributing zero). -/
theorem C2_sidecar_metadata (fs : FS) (sdMount backupDir : FsPath)
    (cats : List String) (descr tsDir tsIso : String)
    (hsd : fs.isDir sdMount = true)
    (hvalid : ∀ c ∈ cats, isValidCategory c = true)
    (hne : cats ≠ [])
    (hsep : ¬ sdMount <+: backupDir ∧ ¬ backupDir <+: sdMount)
    (hunw : (backupDir ++ [backupDirName fs sdMount tsDir] ++ ["backup_info.json"])
        ∉ fs.unwritable) :
    (create_backup fs sdMount backupDir cats descr tsDir tsIso).fs.findFile
        (backupDir ++ [backupDirName fs sdMount tsDir] ++ ["backup_info.json"])
      = some (FileData.sidecar
          ⟨tsIso, cats.filter (fun c => fs.isDir (sdMount ++ catPath c)), descr,
            detect_sd_state fs sdMount, detect_onion_version fs sdMount,
            (cats.map (fun c => count_files fs (sdMount ++ catPath c))).sum⟩) := by
  rw [create_backup_success_fs fs sdMount backupDir cats descr tsDir tsIso hsd hvalid hne]
  have hsep' : ¬ sdMount <+: backupDir ++ [backupDirName fs sdMount tsDir]
      ∧ ¬ backupDir ++ [backupDirName fs sdMount tsDir] <+: sdMount := by
    constructor
    · exact sep_no_cross hsep List.prefix_rfl
        (List.prefix_append backupDir [backupDirName fs sdMount tsDir])
    · exact sep_no_cross ⟨hsep.2, hsep.1⟩
        (List.prefix_append backupDir [backupDirName fs sdMount tsDir]) List.prefix_rfl
  have hnotpre : ∀ x : FsPath,
      ¬ sdMount ++ x <+: backupDir ++ [backupDirName fs sdMount tsDir] := by
    intro x
    exact sep_no_cross hsep (List.prefix_append sdMount x)
      (List.prefix_append backupDir [backupDirName fs sdMount tsDir])
  have hunw2 : (categoryLoop sdMount (backupDir ++ [backupDirName fs sdMount tsDir])
        ((cats.map (fun c => count_files
          (fs.mkdirP (backupDir ++ [backupDirName fs sdMount tsDir]))
          (sdMount ++ catPath c))).sum)
        (fs.mkdirP (backupDir ++ [backupDirName fs sdMount tsDir])) 0 cats).fs.unwritable = fs.unwritable := by
    rw [loop_unwritable, mkdirP_unwritable]
  rw [if_neg (by
    rw [hunw2]
    simp only [contains_iff_mem]
    exact fun hx => hunw hx)]
  rw [findFile_update_setFile]
  have hcounts := loop_counts sdMount (backupDir ++ [backupDirName fs sdMount tsDir])
    ((cats.map (fun c => count_files
      (fs.mkdirP (backupDir ++ [backupDirName fs sdMount tsDir]))
      (sdMount ++ catPath c))).sum) hsep' cats
    (fs.mkdirP (backupDir ++ [backupDirName fs sdMount tsDir])) 0
  have hdone : (categoryLoop sdMount (backupDir ++ [backupDirName fs sdMount tsDir])
        ((cats.map (fun c => count_files
          (fs.mkdirP (backupDir ++ [backupDirName fs sdMount tsDir]))
          (sdMount ++ catPath c))).sum)
        (fs.mkdirP (backupDir ++ [backupDirName fs sdMount tsDir])) 0 cats).doneCats
      = cats.filter (fun c => fs.isDir (sdMount ++ catPath c)) := by
    rw [hcounts.2]
    refine List.filter_congr ?_
    intro c _
    rw [isDir_mkdirP_of_not_pre (hnotpre (catPath c))]
  have hfd : (categoryLoop sdMount (backupDir ++ [backupDirName fs sdMount tsDir])
        ((cats.map (fun c => count_files
          (fs.mkdirP (backupDir ++ [backupDirName fs sdMount tsDir]))
          (sdMount ++ catPath c))).sum)
        (fs.mkdirP (backupDir ++ [backupDirName fs sdMount tsDir])) 0 cats).filesDone
      = (cats.map (fun c => count_files fs (sdMount ++ catPath c))).sum := by
    rw [hcounts.1, Nat.zero_add]
    refine congrArg List.sum ?_
    refine List.map_congr_left ?_
    intro c _
    rw [count_files_mkdirP_of_not_pre (hnotpre (catPath c))]
  rw [hdone, hfd]

/-- Witness for C2: backing up "roms" and "bios" (the latter absent) from a
concrete SD card records categories ["roms"] and the file count of Roms. -/
theorem C2_sidecar_metadata_witness :
    (create_backup
        ⟨[(["sd", "Roms", "g.gba"], FileData.bytes "G")],
          [[], ["sd"], ["sd", "Roms"], ["bk"]], [], []⟩
        ["sd"] ["bk"] ["roms", "bios"] "d" "TS" "ISO").fs.findFile
        (["bk"] ++ [backupDirName
            ⟨[(["sd", "Roms", "g.gba"], FileData.bytes "G")],
              [[], ["sd"], ["sd", "Roms"], ["bk"]], [], []⟩ ["sd"] "TS"]
          ++ ["backup_info.json"])
      = some (FileData.sidecar
          ⟨"ISO",
            ["roms", "bios"].filter (fun c => FS.isDir
              ⟨[(["sd", "Roms", "g.gba"], FileData.bytes "G")],
                [[], ["sd"], ["sd", "Roms"], ["bk"]], [], []⟩ (["sd"] ++ catPath c)),
            "d",
            detect_sd_state
              ⟨[(["sd", "Roms", "g.gba"], FileData.bytes "G")],
                [[], ["sd"], ["sd", "Roms"], ["bk"]], [], []⟩ ["sd"],
            detect_onion_version
              ⟨[(["sd", "Roms", "g.gba"], FileData.bytes "G")],
                [[], ["sd"], ["sd", "Roms"], ["bk"]], [], []⟩ ["sd"],
            (["roms", "bios"].map (fun c => count_files
              ⟨[(["sd", "Roms", "g.gba"], FileData.bytes "G")],
                [[], ["sd"], ["sd", "Roms"], ["bk"]], [], []⟩
              (["sd"] ++ catPath c))).sum⟩) :=
  C2_sidecar_metadata _ ["sd"] ["bk"] ["roms", "bios"] "d" "TS" "ISO"
    (by decide) (by decide) (by decide) (by decide) (by decide)

/- ----------------------------------------------------------------------
C4: list_backups
---------------------------------------------------------------------- -/

lemma listBackupsLoop_eq (fs : FS) (d : FsPath) :
    ∀ names : List String,
      listBackupsLoop fs d names
        = (names.filter (validSnapshotDir fs d)).map (mkRecord fs d) := by
  intro names
  induction names with
  | nil => rfl
  | cons name rest ih =>
    unfold listBackupsLoop
    rw [List.filter_cons]
    by_cases hv : validSnapshotDir fs d name = true
    · rw [if_pos hv, if_pos hv, List.map_cons, ih]
    · rw [if_neg hv, if_neg hv, ih]

lemma sortDescStr_sorted (l : List String) :
    List.Sorted (fun a b : String => a ≥ b) (sortDescStr l) :=
  List.sorted_insertionSort _ l

lemma sortDescStr_perm (l : List String) : (sortDescStr l).Perm l :=
  List.perm_insertionSort _ l

/-- C4: on a backup root, `list_backups` returns exactly one summary record
per immediate child directory holding a readable, parseable sidecar — in
reverse lexicographic (newest-first) order of directory name — and
silently skips (without error) every child that is not a directory, lacks
a sidecar, or holds an unreadable or malformed one. -/
theorem C4_list_backups (fs : FS) (backupDir : FsPath)
    (hd : fs.isDir backupDir = true) :
    list_backups fs backupDir
      = ((sortDescStr (childNames fs backupDir)).filter
          (validSnapshotDir fs backupDir)).map (mkRecord fs backupDir)
    ∧ List.Sorted (fun a b : String => a ≥ b)
        ((sortDescStr (childNames fs backupDir)).filter (validSnapshotDir fs backupDir))
    ∧ (list_backups fs backupDir).length
        = ((childNames fs backupDir).filter (validSnapshotDir fs backupDir)).length := by
  have heq : list_backups fs backupDir
      = ((sortDescStr (childNames fs backupDir)).filter
          (validSnapshotDir fs backupDir)).map (mkRecord fs backupDir) := by
    unfold list_backups
    rw [if_pos hd, listBackupsLoop_eq]
  refine ⟨heq, List.Pairwise.filter _ (sortDescStr_sorted _), ?_⟩
  rw [heq, List.length_map, ← List.countP_eq_length_filter, ← List.countP_eq_length_filter]
  exact (sortDescStr_perm (childNames fs backupDir)).countP_eq _

/-- Witness for C4 at a backup root holding two valid snapshots, one
directory with a malformed sidecar, and one without a sidecar. -/
theorem C4_list_backups_witness :
    FS.isDir
      ⟨[(["bk", "20240101_stock", "backup_info.json"],
          FileData.sidecar ⟨"d1", ["roms"], "", "stock", "", 1⟩),
        (["bk", "20240202_onion", "backup_info.json"],
          FileData.sidecar ⟨"d2", ["saves"], "", "onion", "", 2⟩),
        (["bk", "20240303_bad", "backup_info.json"], FileData.bytes "oops")],
        [[], ["bk"], ["bk", "20240101_stock"], ["bk", "20240202_onion"],
          ["bk", "20240303_bad"], ["bk", "20240404_empty"]], [], []⟩ ["bk"] = true
    ∧ (list_backups
        ⟨[(["bk", "20240101_stock", "backup_info.json"],
            FileData.sidecar ⟨"d1", ["roms"], "", "stock", "", 1⟩),
          (["bk", "20240202_onion", "backup_info.json"],
            FileData.sidecar ⟨"d2", ["saves"], "", "onion", "", 2⟩),
          (["bk", "20240303_bad", "backup_info.json"], FileData.bytes "oops")],
          [[], ["bk"], ["bk", "20240101_stock"], ["bk", "20240202_onion"],
            ["bk", "20240303_bad"], ["bk", "20240404_empty"]], [], []⟩ ["bk"]).length
      = ((childNames
          ⟨[(["bk", "20240101_stock", "backup_info.json"],
              FileData.sidecar ⟨"d1", ["roms"], "", "stock", "", 1⟩),
            (["bk", "20240202_onion", "backup_info.json"],
              FileData.sidecar ⟨"d2", ["saves"], "", "onion", "", 2⟩),
            (["bk", "20240303_bad", "backup_info.json"], FileData.bytes "oops")],
            [[], ["bk"], ["bk", "20240101_stock"], ["bk", "20240202_onion"],
              ["bk", "20240303_bad"], ["bk", "20240404_empty"]], [], []⟩ ["bk"]).filter
          (validSnapshotDir
            ⟨[(["bk", "20240101_stock", "backup_info.json"],
                FileData.sidecar ⟨"d1", ["roms"], "", "stock", "", 1⟩),
              (["bk", "20240202_onion", "backup_info.json"],
                FileData.sidecar ⟨"d2", ["saves"], "", "onion", "", 2⟩),
              (["bk", "20240303_bad", "backup_info.json"], FileData.bytes "oops")],
              [[], ["bk"], ["bk", "20240101_stock"], ["bk", "20240202_onion"],
                ["bk", "20240303_bad"], ["bk", "20240404_empty"]], [], []⟩ ["bk"])).length :=
  ⟨by decide,
    (C4_list_backups _ ["bk"] (by decide)).2.2⟩

/- ----------------------------------------------------------------------
C10: progress-event invariants
---------------------------------------------------------------------- -/

lemma copy_tree_copied_eq (fs : FS) (src dst : FsPath) (cat : String) (fd tot : Nat) :
    (copy_tree_with_progress fs src dst cat fd tot).copied = count_files fs src := by
  by_cases hd : fs.isDir src = true
  · exact copy_tree_copied hd
  · rw [copy_tree_of_not_dir hd]
    unfold count_files
    rw [if_neg hd]

lemma step_src_count_gen {fs : FS} {a b root x src : FsPath} {cat : String} {fd tot : Nat}
    (hsep : ¬ a <+: b ∧ ¬ b <+: a) (hroot : a <+: root) :
    count_files (copy_tree_with_progress fs src (b ++ x) cat fd tot).fs root
      = count_files fs root := by
  unfold count_files
  have hdir : (copy_tree_with_progress fs src (b ++ x) cat fd tot).fs.isDir root
      = fs.isDir root := by
    cases hd : fs.isDir root with
    | true => exact copy_tree_isDir_mono hd
    | false =>
      cases hd2 : (copy_tree_with_progress fs src (b ++ x) cat fd tot).fs.isDir root with
      | false => rfl
      | true =>
        exfalso
        have hmem : root ∈ (copy_tree_with_progress fs src (b ++ x) cat fd tot).fs.dirs := by
          simpa [FS.isDir, contains_iff_mem] using hd2
        rcases copy_tree_mem_dirs hmem with h1 | ⟨y, hy⟩
        · have : fs.isDir root = true := by simpa [FS.isDir, contains_iff_mem] using h1
          rw [hd] at this
          cases this
        · have h2 : b <+: b ++ x ++ y :=
            (List.prefix_append b x).trans (List.prefix_append (b ++ x) y)
          have h3 : a <+: b ++ x ++ y := hroot.trans hy
          rcases prefixComparable h3 h2 with h4 | h4
          · exact hsep.1 h4
          · exact hsep.2 h4
  rw [hdir]
  by_cases hd : fs.isDir root = true
  · rw [if_pos hd, if_pos hd]
    have hfil := @copy_tree_filter_away fs src (b ++ x) cat fd tot
      (fun q => underB root q) ?_
    · rw [hfil]
    · intro q hq
      rintro ⟨hpre, -⟩
      rcases underB_iff.mp hq with ⟨hq1, -⟩
      have h1 : b <+: q := (List.prefix_append b x).trans hpre
      have h2 : a <+: q := hroot.trans hq1
      rcases prefixComparable h2 h1 with h3 | h3
      · exact hsep.1 h3
      · exact hsep.2 h3
  · rw [if_neg hd, if_neg hd]

lemma jobsLoop_events (total : Nat) :
    ∀ (jobs : List CopyJob) (fs : FS) (fd : Nat),
      eventsNumbered (jobsLoop total fs fd jobs).2.2 fd total
        ∧ (jobsLoop total fs fd jobs).2.2.length = (jobsLoop total fs fd jobs).2.1 := by
  intro jobs
  induction jobs with
  | nil =>
    intro fs fd
    exact ⟨eventsNumbered_nil fd total, rfl⟩
  | cons j rest ih =>
    intro fs fd
    rcases ih (copy_tree_with_progress fs j.src j.dst j.label fd total).fs
      (fd + (copy_tree_with_progress fs j.src j.dst j.label fd total).copied) with ⟨h1, h2⟩
    constructor
    · show eventsNumbered ((copy_tree_with_progress fs j.src j.dst j.label fd total).events
        ++ _) fd total
      refine eventsNumbered_append (copy_tree_eventsNumbered _ _ _ _ _ _) ?_
      rw [copy_tree_events_eq_copied]
      exact h1
    · show ((copy_tree_with_progress fs j.src j.dst j.label fd total).events
          ++ (jobsLoop total (copy_tree_with_progress fs j.src j.dst j.label fd total).fs
            (fd + (copy_tree_with_progress fs j.src j.dst j.label fd total).copied)
            rest).2.2).length
        = (copy_tree_with_progress fs j.src j.dst j.label fd total).copied
          + (jobsLoop total (copy_tree_with_progress fs j.src j.dst j.label fd total).fs
              (fd + (copy_tree_with_progress fs j.src j.dst j.label fd total).copied) rest).2.1
      rw [List.length_append, copy_tree_events_eq_copied, h2]

lemma jobsLoop_counts (total : Nat) {stockMount onionMount : FsPath}
    (hsep : ¬ stockMount <+: onionMount ∧ ¬ onionMount <+: stockMount) :
    ∀ (jobs : List CopyJob) (fs : FS) (fd : Nat),
      (∀ j ∈ jobs, (∃ x, j.src = stockMount ++ x) ∧ ∃ y, j.dst = onionMount ++ y) →
      (jobsLoop total fs fd jobs).2.1 = (jobs.map (fun j => count_files fs j.src)).sum := by
  intro jobs
  induction jobs with
  | nil => intro fs fd _; rfl
  | cons j rest ih =>
    intro fs fd hjobs
    rcases hjobs j (List.mem_cons_self _ _) with ⟨⟨x, hx⟩, y, hy⟩
    show (copy_tree_with_progress fs j.src j.dst j.label fd total).copied
        + (jobsLoop total _ _ rest).2.1 = _
    rw [ih _ _ (fun j' hj' => hjobs j' (List.mem_cons_of_mem _ hj')),
      copy_tree_copied_eq, List.map_cons, List.sum_cons]
    congr 1
    refine congrArg List.sum ?_
    refine List.map_congr_left ?_
    intro j' hj'
    rcases hjobs j' (List.mem_cons_of_mem _ hj') with ⟨⟨x', hx'⟩, y', hy'⟩
    rw [hy, hx']
    exact step_src_count_gen hsep (List.prefix_append _ _)

lemma buildJobs_shape (fs : FS) (stockMount onionMount : FsPath) :
    ∀ j ∈ buildJobs fs stockMount onionMount,
      (∃ x, j.src = stockMount ++ x) ∧ ∃ y, j.dst = onionMount ++ y := by
  intro j hj
  unfold buildJobs at hj
  rcases List.mem_append.mp hj with hj1 | hj2
  · rcases List.mem_filterMap.mp hj1 with ⟨m, -, hm⟩
    by_cases hd : fs.isDir (stockMount ++ m.1) = true
    · rw [if_pos hd] at hm
      cases hm
      exact ⟨⟨m.1, rfl⟩, m.2, rfl⟩
    · rw [if_neg hd] at hm
      cases hm
  · rcases List.mem_filterMap.mp hj2 with ⟨dn, -, hdn⟩
    by_cases hd : fs.isDir (stockMount ++ [dn]) = true
    · rw [if_pos hd] at hdn
      cases hdn
      exact ⟨⟨[dn], rfl⟩, [dn], rfl⟩
    · rw [if_neg hd] at hdn
      cases hdn

lemma create_backup_events_cases (fs : FS) (sdMount backupDir : FsPath)
    (cats : List String) (descr tsDir tsIso : String) :
    (create_backup fs sdMount backupDir cats descr tsDir tsIso).events = []
    ∨ (fs.isDir sdMount = true ∧ (∀ c ∈ cats, isValidCategory c = true) ∧ cats ≠ []) := by
  by_cases h1 : fs.isDir sdMount = true
  · by_cases h2 : (cats.filter (fun c => !isValidCategory c)) = []
    · by_cases h3 : cats = []
      · left
        unfold create_backup
        rw [if_neg (by simp [h1]), if_neg (not_ne_iff.mpr h2), if_pos h3]
      · right
        refine ⟨h1, ?_, h3⟩
        intro c hc
        have := List.filter_eq_nil_iff.mp h2 c hc
        simpa using this
    · left
      unfold create_backup
      rw [if_neg (by simp [h1]), if_pos h2]
  · left
    unfold create_backup
    rw [if_pos (by simp [h1])]

lemma restore_backup_validations (fs : FS) (backupPath sdMount : FsPath)
    (cats : List String)
    (hbp : fs.isDir backupPath = true) (hsd : fs.isDir sdMount = true)
    (hvalid : ∀ c ∈ cats, isValidCategory c = true) (hne : cats ≠ []) :
    restore_backup fs backupPath sdMount cats =
      (let totalFiles := (cats.map (fun c => count_files fs (backupPath ++ catPath c))).sum
       let out := categoryLoop backupPath sdMount totalFiles fs 0 cats
       ⟨⟨true,
         "Restore completed: " ++ toString out.filesDone ++ " files in " ++
           toString out.doneCats.length ++ " categories."⟩, out.fs, out.events⟩) := by
  have hfil : (cats.filter (fun c => !isValidCategory c)) = [] :=
    List.filter_eq_nil_iff.mpr (fun c hc => by simp [hvalid c hc])
  unfold restore_backup
  rw [if_neg (by simp [hbp]), if_neg (by simp [hsd]), if_neg (not_ne_iff.mpr hfil),
    if_neg hne]

lemma restore_backup_success_events (fs : FS) (backupPath sdMount : FsPath)
    (cats : List String)
    (hbp : fs.isDir backupPath = true) (hsd : fs.isDir sdMount = true)
    (hvalid : ∀ c ∈ cats, isValidCategory c = true) (hne : cats ≠ []) :
    (restore_backup fs backupPath sdMount cats).events = (categoryLoop backupPath sdMount
        ((cats.map (fun c => count_files fs (backupPath ++ catPath c))).sum) fs 0 cats).events := by
  rw [restore_backup_validations fs backupPath sdMount cats hbp hsd hvalid hne]

lemma restore_backup_success_fs (fs : FS) (backupPath sdMount : FsPath)
    (cats : List String)
    (hbp : fs.isDir backupPath = true) (hsd : fs.isDir sdMount = true)
    (hvalid : ∀ c ∈ cats, isValidCategory c = true) (hne : cats ≠ []) :
    (restore_backup fs backupPath sdMount cats).fs = (categoryLoop backupPath sdMount
        ((cats.map (fun c => count_files fs (backupPath ++ catPath c))).sum) fs 0 cats).fs := by
  rw [restore_backup_validations fs backupPath sdMount cats hbp hsd hvalid hne]

lemma restore_backup_success_result (fs : FS) (backupPath sdMount : FsPath)
    (cats : List String)
    (hbp : fs.isDir backupPath = true) (hsd : fs.isDir sdMount = true)
    (hvalid : ∀ c ∈ cats, isValidCategory c = true) (hne : cats ≠ []) :
    (restore_backup fs backupPath sdMount cats).result.success = true := by
  rw [restore_backup_validations fs backupPath sdMount cats hbp hsd hvalid hne]

lemma restore_backup_events_cases (fs : FS) (backupPath sdMount : FsPath)
    (cats : List String) :
    (restore_backup fs backupPath sdMount cats).events = []
    ∨ (fs.isDir backupPath = true ∧ fs.isDir sdMount = true
        ∧ (∀ c ∈ cats, isValidCategory c = true) ∧ cats ≠ []) := by
  by_cases h1 : fs.isDir backupPath = true
  · by_cases h2 : fs.isDir sdMount = true
    · by_cases h3 : (cats.filter (fun c => !isValidCategory c)) = []
      · by_cases h4 : cats = []
        · left
          unfold restore_backup
          rw [if_neg (by simp [h1]), if_neg (by simp [h2]),
            if_neg (not_ne_iff.mpr h3), if_pos h4]
        · right
          refine ⟨h1, h2, ?_, h4⟩
          intro c hc
          have := List.filter_eq_nil_iff.mp h3 c hc
          simpa using this
      · left
        unfold restore_backup
        rw [if_neg (by simp [h1]), if_neg (by simp [h2]), if_pos h3]
    · left
      unfold restore_backup
      rw [if_neg (by simp [h1]), if_pos (by simp [h2])]
  · left
    unfold restore_backup
    rw [if_pos (by simp [h1])]

lemma migrate_validations (fs : FS) (stockMount onionMount : FsPath)
    (hs : fs.isDir stockMount = true) (ho : fs.isDir onionMount = true)
    (hjobs : buildJobs fs stockMount onionMount ≠ []) :
    migrate_stock_to_onion fs stockMount onionMount =
      (let jobs := buildJobs fs stockMount onionMount
       let totalFiles := (jobs.map (fun j => count_files fs j.src)).sum
       let r := jobsLoop totalFiles fs 0 jobs
       ⟨⟨true, "Migration completed: " ++ toString r.2.1 ++ " files copied."⟩,
         r.1, r.2.2⟩) := by
  unfold migrate_stock_to_onion
  rw [if_neg (by simp [hs]), if_neg (by simp [ho]), if_neg hjobs]

lemma migrate_events_cases (fs : FS) (stockMount onionMount : FsPath) :
    (migrate_stock_to_onion fs stockMount onionMount).events = []
    ∨ (fs.isDir stockMount = true ∧ fs.isDir onionMount = true
        ∧ buildJobs fs stockMount onionMount ≠ []) := by
  by_cases h1 : fs.isDir stockMount = true
  · by_cases h2 : fs.isDir onionMount = true
    · by_cases h3 : buildJobs fs stockMount onionMount = []
      · left
        unfold migrate_stock_to_onion
        rw [if_neg (by simp [h1]), if_neg (by simp [h2]), if_pos h3]
      · right
        exact ⟨h1, h2, h3⟩
    · left
      unfold migrate_stock_to_onion
      rw [if_neg (by simp [h1]), if_pos (by simp [h2])]
  · left
    unfold migrate_stock_to_onion
    rw [if_pos (by simp [h1])]

/-- C10: in every `create_backup`, `restore_backup`, or
`migrate_stock_to_onion` run in which the written tree is disjoint from the
read tree (the formal rendering of "the filesystem does not change between
the counting pass and the copying pass"), there is a single precomputed
total `T` carried by every progress event, the `files_done` values are
`1, 2, 3, ...` in order (so each event increases the count by exactly one
and `1 ≤ files_done`), and every `files_done` is at most `T`. -/
theorem C10_progress_events
    (fs : FS) (sdMount backupDir backupPath target stockMount onionMount : FsPath)
    (cats rcats : List String) (descr tsDir tsIso : String)
    (hsep1 : ¬ sdMount <+: backupDir ∧ ¬ backupDir <+: sdMount)
    (hsep2 : ¬ backupPath <+: target ∧ ¬ target <+: backupPath)
    (hsep3 : ¬ stockMount <+: onionMount ∧ ¬ onionMount <+: stockMount) :
    (∃ T, eventsNumbered
        (create_backup fs sdMount backupDir cats descr tsDir tsIso).events 0 T
      ∧ (create_backup fs sdMount backupDir cats descr tsDir tsIso).events.length ≤ T)
    ∧ (∃ T, eventsNumbered (restore_backup fs backupPath target rcats).events 0 T
      ∧ (restore_backup fs backupPath target rcats).events.length ≤ T)
    ∧ (∃ T, eventsNumbered (migrate_stock_to_onion fs stockMount onionMount).events 0 T
      ∧ (migrate_stock_to_onion fs stockMount onionMount).events.length ≤ T) := by
  refine ⟨?_, ?_, ?_⟩
  · rcases create_backup_events_cases fs sdMount backupDir cats descr tsDir tsIso with
      hemp | ⟨h1, h2, h3⟩
    · exact ⟨0, by rw [hemp]; exact eventsNumbered_nil 0 0, by rw [hemp]; exact Nat.le_refl 0⟩
    · rw [create_backup_success_events fs sdMount backupDir cats descr tsDir tsIso h1 h2 h3]
      have hsep' : ¬ sdMount <+: backupDir ++ [backupDirName fs sdMount tsDir]
          ∧ ¬ backupDir ++ [backupDirName fs sdMount tsDir] <+: sdMount := by
        constructor
        · exact sep_no_cross hsep1 List.prefix_rfl
            (List.prefix_append backupDir [backupDirName fs sdMount tsDir])
        · exact sep_no_cross ⟨hsep1.2, hsep1.1⟩
            (List.prefix_append backupDir [backupDirName fs sdMount tsDir]) List.prefix_rfl
      have hev := loop_events sdMount (backupDir ++ [backupDirName fs sdMount tsDir])
        ((cats.map (fun c => count_files
          (fs.mkdirP (backupDir ++ [backupDirName fs sdMount tsDir]))
          (sdMount ++ catPath c))).sum) cats
        (fs.mkdirP (backupDir ++ [backupDirName fs sdMount tsDir])) 0
      have hcnt := loop_counts sdMount (backupDir ++ [backupDirName fs sdMount tsDir])
        ((cats.map (fun c => count_files
          (fs.mkdirP (backupDir ++ [backupDirName fs sdMount tsDir]))
          (sdMount ++ catPath c))).sum) hsep' cats
        (fs.mkdirP (backupDir ++ [backupDirName fs sdMount tsDir])) 0
      refine ⟨_, hev.1, ?_⟩
      have h4 := hev.2
      rw [hcnt.1] at h4
      omega
  · rcases restore_backup_events_cases fs backupPath target rcats with
      hemp | ⟨h1, h2, h3, h4⟩
    · exact ⟨0, by rw [hemp]; exact eventsNumbered_nil 0 0, by rw [hemp]; exact Nat.le_refl 0⟩
    · rw [restore_backup_success_events fs backupPath target rcats h1 h2 h3 h4]
      have hev := loop_events backupPath target
        ((rcats.map (fun c => count_files fs (backupPath ++ catPath c))).sum) rcats fs 0
      have hcnt := loop_counts backupPath target
        ((rcats.map (fun c => count_files fs (backupPath ++ catPath c))).sum) hsep2 rcats fs 0
      refine ⟨_, hev.1, ?_⟩
      have h5 := hev.2
      rw [hcnt.1] at h5
      omega
  · rcases migrate_events_cases fs stockMount onionMount with hemp | ⟨h1, h2, h3⟩
    · exact ⟨0, by rw [hemp]; exact eventsNumbered_nil 0 0, by rw [hemp]; exact Nat.le_refl 0⟩
    · have hme : (migrate_stock_to_onion fs stockMount onionMount).events
          = (jobsLoop (((buildJobs fs stockMount onionMount).map
              (fun j => count_files fs j.src)).sum) fs 0
              (buildJobs fs stockMount onionMount)).2.2 := by
        rw [migrate_validations fs stockMount onionMount h1 h2 h3]
      rw [hme]
      have hev := jobsLoop_events (((buildJobs fs stockMount onionMount).map
        (fun j => count_files fs j.src)).sum) (buildJobs fs stockMount onionMount) fs 0
      have hcnt := jobsLoop_counts (((buildJobs fs stockMount onionMount).map
        (fun j => count_files fs j.src)).sum) hsep3 (buildJobs fs stockMount onionMount)
        fs 0 (buildJobs_shape fs stockMount onionMount)
      refine ⟨_, hev.1, ?_⟩
      rw [hev.2, hcnt]

/-- Witness for C10 at a concrete filesystem and concrete disjoint roots. -/
theorem C10_progress_events_witness :
    (∃ T, eventsNumbered
        (create_backup ⟨[(["sd", "Roms", "g.gba"], FileData.bytes "G")],
          [[], ["sd"], ["sd", "Roms"], ["bk"], ["tg"]], [], []⟩
          ["sd"] ["bk"] ["roms"] "d" "TS" "ISO").events 0 T
      ∧ (create_backup ⟨[(["sd", "Roms", "g.gba"], FileData.bytes "G")],
          [[], ["sd"], ["sd", "Roms"], ["bk"], ["tg"]], [], []⟩
          ["sd"] ["bk"] ["roms"] "d" "TS" "ISO").events.length ≤ T)
    ∧ (∃ T, eventsNumbered
        (restore_backup ⟨[(["sd", "Roms", "g.gba"], FileData.bytes "G")],
          [[], ["sd"], ["sd", "Roms"], ["bk"], ["tg"]], [], []⟩
          ["bk"] ["tg"] ["saves"]).events 0 T
      ∧ (restore_backup ⟨[(["sd", "Roms", "g.gba"], FileData.bytes "G")],
          [[], ["sd"], ["sd", "Roms"], ["bk"], ["tg"]], [], []⟩
          ["bk"] ["tg"] ["saves"]).events.length ≤ T)
    ∧ (∃ T, eventsNumbered
        (migrate_stock_to_onion ⟨[(["sd", "Roms", "g.gba"], FileData.bytes "G")],
          [[], ["sd"], ["sd", "Roms"], ["bk"], ["tg"]], [], []⟩
          ["sd"] ["tg"]).events 0 T
      ∧ (migrate_stock_to_onion ⟨[(["sd", "Roms", "g.gba"], FileData.bytes "G")],
          [[], ["sd"], ["sd", "Roms"], ["bk"], ["tg"]], [], []⟩
          ["sd"] ["tg"]).events.length ≤ T) :=
  C10_progress_events _ ["sd"] ["bk"] ["bk"] ["tg"] ["sd"] ["tg"] ["roms"] ["saves"]
    "d" "TS" "ISO" (by decide) (by decide) (by decide)

lemma strict_under_of_zone {z x p : FsPath} (h : z ++ x <+: p) (hx : x ≠ []) :
    z <+: p ∧ p ≠ z := by
  refine ⟨(List.prefix_append z x).trans h, ?_⟩
  rintro rfl
  have h1 := h.length_le
  rw [List.length_append] at h1
  have h2 : x.length = 0 := by omega
  exact hx (List.eq_nil_of_length_eq_zero h2)

/- ----------------------------------------------------------------------
C9: restore never touches the snapshot; all writes land under the target
---------------------------------------------------------------------- -/

lemma restore_backup_fs_cases (fs : FS) (backupPath target : FsPath)
    (cats : List String) :
    (restore_backup fs backupPath target cats).fs = fs
    ∨ ((∀ c ∈ cats, isValidCategory c = true)
        ∧ (restore_backup fs backupPath target cats).fs = (categoryLoop backupPath target
          ((cats.map (fun c => count_files fs (backupPath ++ catPath c))).sum) fs 0 cats).fs) := by
  rcases restore_backup_events_cases fs backupPath target cats with hemp | ⟨h1, h2, h3, h4⟩
  · by_cases ha : fs.isDir backupPath = true
    · by_cases hb : fs.isDir target = true
      · by_cases hc : (cats.filter (fun c => !isValidCategory c)) = []
        · by_cases hd : cats = []
          · left
            unfold restore_backup
            rw [if_neg (by simp [ha]), if_neg (by simp [hb]),
              if_neg (not_ne_iff.mpr hc), if_pos hd]
          · right
            have hvalid : ∀ c ∈ cats, isValidCategory c = true := by
              intro c hcmem
              have := List.filter_eq_nil_iff.mp hc c hcmem
              simpa using this
            exact ⟨hvalid,
              restore_backup_success_fs fs backupPath target cats ha hb hvalid hd⟩
        · left
          unfold restore_backup
          rw [if_neg (by simp [ha]), if_neg (by simp [hb]), if_pos hc]
      · left
        unfold restore_backup
        rw [if_neg (by simp [ha]), if_pos (by simp [hb])]
    · left
      unfold restore_backup
      rw [if_pos (by simp [ha])]
  · right
    exact ⟨h3, restore_backup_success_fs fs backupPath target cats h1 h2 h3 h4⟩

lemma loop_writes (srcRoot dstRoot : FsPath) (total : Nat)
    (cats : List String) (fs : FS) (fd : Nat) (p : FsPath)
    (h : (categoryLoop srcRoot dstRoot total fs fd cats).fs.findFile p ≠ fs.findFile p) :
    ∃ c ∈ cats, ∃ rel, rel ≠ [] ∧ p = dstRoot ++ catPath c ++ rel := by
  by_contra hno
  push_neg at hno
  refine h (loop_findFile_frame srcRoot dstRoot total cats fs fd p ?_)
  intro c hc rel hrel hx
  exact (hno c hc rel hrel) hx

/-- C9: if the target mount root and the snapshot directory occupy disjoint
subtrees and the target's ancestors exist, then `restore_backup` leaves
every path at or below the snapshot untouched (same file content, same
directory set — nothing created, modified, or deleted), and every change it
makes (file written or directory created) is at a path strictly below the
target root. -/
theorem C9_restore_frame (fs : FS) (backupPath target : FsPath) (cats : List String)
    (hsep : ¬ backupPath <+: target ∧ ¬ target <+: backupPath)
    (hanc : ∀ q ∈ List.inits target, fs.isDir q = true) :
    (∀ p, backupPath <+: p →
        (restore_backup fs backupPath target cats).fs.findFile p = fs.findFile p
        ∧ (restore_backup fs backupPath target cats).fs.isDir p = fs.isDir p)
    ∧ (∀ p, ((restore_backup fs backupPath target cats).fs.findFile p ≠ fs.findFile p
          ∨ ((restore_backup fs backupPath target cats).fs.isDir p = true
              ∧ fs.isDir p = false)) →
        target <+: p ∧ p ≠ target) := by
  rcases restore_backup_fs_cases fs backupPath target cats with hunch | ⟨hvalid, hloop⟩
  · constructor
    · intro p _
      rw [hunch]
      exact ⟨rfl, rfl⟩
    · intro p hp
      rw [hunch] at hp
      rcases hp with hp | ⟨hp1, hp2⟩
      · exact absurd rfl hp
      · rw [hp1] at hp2
        cases hp2
  · constructor
    · intro p hp
      rw [hloop]
      constructor
      · exact loop_src_findFile backupPath target _ ⟨hsep.1, hsep.2⟩ cats fs 0 p hp
      · exact loop_src_isDir backupPath target _ ⟨hsep.1, hsep.2⟩ cats fs 0 p hp
    · intro p hp
      rw [hloop] at hp
      rcases hp with hp | ⟨hp1, hp2⟩
      · rcases loop_writes backupPath target _ cats fs 0 p hp with ⟨c, hc, rel, hrel, rfl⟩
        have hx : catPath c ++ rel ≠ [] := by
          intro hx
          exact hrel (List.append_eq_nil.mp hx).2
        have hzx : target ++ (catPath c ++ rel) <+: target ++ catPath c ++ rel := by
          rw [List.append_assoc]
        exact strict_under_of_zone hzx hx
      · have hmem : p ∈ (categoryLoop backupPath target
            ((cats.map (fun c => count_files fs (backupPath ++ catPath c))).sum)
            fs 0 cats).fs.dirs := by
          simpa [FS.isDir, contains_iff_mem] using hp1
        rcases loop_mem_dirs backupPath target _ cats fs 0 p hmem with h1 | ⟨c, hc, x, hx⟩
        · exfalso
          have : fs.isDir p = true := by simpa [FS.isDir, contains_iff_mem] using h1
          rw [hp2] at this
          cases this
        · have htx : target <+: target ++ catPath c ++ x :=
            (List.prefix_append target (catPath c)).trans
              (List.prefix_append (target ++ catPath c) x)
          rcases prefixComparable hx htx with h2 | h2
          · exfalso
            have h3 : fs.isDir p = true := hanc p ((List.mem_inits _ _).mpr h2)
            rw [hp2] at h3
            cases h3
          · refine ⟨h2, ?_⟩
            intro hpt
            have h3 : fs.isDir p = true := hanc p (by
              rw [hpt]
              exact (List.mem_inits _ _).mpr List.prefix_rfl)
            rw [hp2] at h3
            cases h3

/-- Witness for C9: restoring "saves" from a concrete snapshot onto `tg`
leaves the snapshot's file and directory intact, and the path the restore
writes lies strictly below the target root. -/
theorem C9_restore_frame_witness :
    ((restore_backup
        ⟨[(["bk", "snap", "Saves", "s.sav"], FileData.bytes "S")],
          [[], ["bk"], ["bk", "snap"], ["bk", "snap", "Saves"], ["tg"]], [], []⟩
        ["bk", "snap"] ["tg"] ["saves"]).fs.findFile ["bk", "snap", "Saves", "s.sav"]
      = FS.findFile
          ⟨[(["bk", "snap", "Saves", "s.sav"], FileData.bytes "S")],
            [[], ["bk"], ["bk", "snap"], ["bk", "snap", "Saves"], ["tg"]], [], []⟩
          ["bk", "snap", "Saves", "s.sav"])
    ∧ (["tg"] <+: ["tg", "Saves", "s.sav"]
        ∧ (["tg", "Saves", "s.sav"] : FsPath) ≠ ["tg"]) :=
  ⟨((C9_restore_frame
      ⟨[(["bk", "snap", "Saves", "s.sav"], FileData.bytes "S")],
        [[], ["bk"], ["bk", "snap"], ["bk", "snap", "Saves"], ["tg"]], [], []⟩
      ["bk", "snap"] ["tg"] ["saves"] (by decide) (by decide)).1
      ["bk", "snap", "Saves", "s.sav"] (by decide)).1,
    (C9_restore_frame
      ⟨[(["bk", "snap", "Saves", "s.sav"], FileData.bytes "S")],
        [[], ["bk"], ["bk", "snap"], ["bk", "snap", "Saves"], ["tg"]], [], []⟩
      ["bk", "snap"] ["tg"] ["saves"] (by decide) (by decide)).2
      ["tg", "Saves", "s.sav"] (Or.inl (by decide))⟩

/- ----------------------------------------------------------------------
C1: backup/restore round trip
---------------------------------------------------------------------- -/

lemma sep_append_singleton {a b : FsPath} (h : ¬ a <+: b ∧ ¬ b <+: a) (n : String) :
    ¬ a <+: b ++ [n] ∧ ¬ b ++ [n] <+: a := by
  constructor
  · intro hx
    rcases prefixComparable hx (List.prefix_append b [n]) with h1 | h1
    · exact h.1 h1
    · exact h.2 h1
  · intro hx
    exact h.2 ((List.prefix_append b [n]).trans hx)

lemma catZone_ne_info {c : String} (hc : isValidCategory c = true) (rel : FsPath) :
    catPath c ++ rel ≠ ["backup_info.json"] := by
  rcases valid_cases hc with rfl | rfl | rfl | rfl | rfl | rfl <;>
    · intro h
      simp [catPath, BACKUP_CATEGORIES] at h

lemma findFile_none_of_all_ne {fs : FS} {p : FsPath}
    (h : ∀ f ∈ fs.files, f.1 ≠ p) : fs.findFile p = none := by
  refine findFile_none_of_not_isFile ?_
  unfold FS.isFile
  cases hx : fs.files.any (fun f => f.1 == p) with
  | false => rfl
  | true =>
    exfalso
    rcases List.any_eq_true.mp hx with ⟨f, hf, hfp⟩
    exact h f hf (by simpa using hfp)

lemma findFile_update_setFile_ne (fs : FS) (p q : FsPath) (d : FileData) (h : q ≠ p) :
    ({ fs with files := setFile fs.files p d } : FS).findFile q = fs.findFile q := by
  show ((setFile fs.files p d).find? (fun f => f.1 == q)).map (fun f => f.2)
    = (fs.files.find? (fun f => f.1 == q)).map (fun f => f.2)
  rw [find?_setFile_ne _ _ _ _ h]

lemma create_fs1_dirs (fs : FS) (sdMount backupDir : FsPath)
    (cats : List String) (descr tsDir tsIso : String)
    (hsd : fs.isDir sdMount = true)
    (hvalid : ∀ c ∈ cats, isValidCategory c = true)
    (hne : cats ≠ []) :
    (create_backup fs sdMount backupDir cats descr tsDir tsIso).fs.dirs
      = (categoryLoop sdMount (backupDir ++ [backupDirName fs sdMount tsDir])
        ((cats.map (fun c => count_files
          (fs.mkdirP (backupDir ++ [backupDirName fs sdMount tsDir]))
          (sdMount ++ catPath c))).sum)
        (fs.mkdirP (backupDir ++ [backupDirName fs sdMount tsDir])) 0 cats).fs.dirs := by
  rw [create_backup_success_fs fs sdMount backupDir cats descr tsDir tsIso hsd hvalid hne]
  by_cases h : (categoryLoop sdMount (backupDir ++ [backupDirName fs sdMount tsDir])
        ((cats.map (fun c => count_files
          (fs.mkdirP (backupDir ++ [backupDirName fs sdMount tsDir]))
          (sdMount ++ catPath c))).sum)
        (fs.mkdirP (backupDir ++ [backupDirName fs sdMount tsDir])) 0 cats).fs.unwritable.contains
      (backupDir ++ [backupDirName fs sdMount tsDir] ++ ["backup_info.json"]) = true
  · rw [if_pos h]
  · rw [if_neg h]

lemma create_fs1_isDir (fs : FS) (sdMount backupDir : FsPath)
    (cats : List String) (descr tsDir tsIso : String)
    (hsd : fs.isDir sdMount = true)
    (hvalid : ∀ c ∈ cats, isValidCategory c = true)
    (hne : cats ≠ []) (q : FsPath) :
    (create_backup fs sdMount backupDir cats descr tsDir tsIso).fs.isDir q
      = (categoryLoop sdMount (backupDir ++ [backupDirName fs sdMount tsDir])
        ((cats.map (fun c => count_files
          (fs.mkdirP (backupDir ++ [backupDirName fs sdMount tsDir]))
          (sdMount ++ catPath c))).sum)
        (fs.mkdirP (backupDir ++ [backupDirName fs sdMount tsDir])) 0 cats).fs.isDir q := by
  unfold FS.isDir
  rw [create_fs1_dirs fs sdMount backupDir cats descr tsDir tsIso hsd hvalid hne]

lemma create_fs1_findFile (fs : FS) (sdMount backupDir : FsPath)
    (cats : List String) (descr tsDir tsIso : String)
    (hsd : fs.isDir sdMount = true)
    (hvalid : ∀ c ∈ cats, isValidCategory c = true)
    (hne : cats ≠ []) (p : FsPath)
    (hp : p ≠ backupDir ++ [backupDirName fs sdMount tsDir] ++ ["backup_info.json"]) :
    (create_backup fs sdMount backupDir cats descr tsDir tsIso).fs.findFile p
      = (categoryLoop sdMount (backupDir ++ [backupDirName fs sdMount tsDir])
        ((cats.map (fun c => count_files
          (fs.mkdirP (backupDir ++ [backupDirName fs sdMount tsDir]))
          (sdMount ++ catPath c))).sum)
        (fs.mkdirP (backupDir ++ [backupDirName fs sdMount tsDir])) 0 cats).fs.findFile p := by
  rw [create_backup_success_fs fs sdMount backupDir cats descr tsDir tsIso hsd hvalid hne]
  by_cases h : (categoryLoop sdMount (backupDir ++ [backupDirName fs sdMount tsDir])
        ((cats.map (fun c => count_files
          (fs.mkdirP (backupDir ++ [backupDirName fs sdMount tsDir]))
          (sdMount ++ catPath c))).sum)
        (fs.mkdirP (backupDir ++ [backupDirName fs sdMount tsDir])) 0 cats).fs.unwritable.contains
      (backupDir ++ [backupDirName fs sdMount tsDir] ++ ["backup_info.json"]) = true
  · rw [if_pos h]
  · rw [if_neg h]
    exact findFile_update_setFile_ne _ _ _ _ hp

lemma create_fs1_nodup (fs : FS) (sdMount backupDir : FsPath)
    (cats : List String) (descr tsDir tsIso : String)
    (hsd : fs.isDir sdMount = true)
    (hvalid : ∀ c ∈ cats, isValidCategory c = true)
    (hne : cats ≠ []) (hnd : fs.NodupKeys) :
    (create_backup fs sdMount backupDir cats descr tsDir tsIso).fs.NodupKeys := by
  rw [create_backup_success_fs fs sdMount backupDir cats descr tsDir tsIso hsd hvalid hne]
  have hloop : (categoryLoop sdMount (backupDir ++ [backupDirName fs sdMount tsDir])
        ((cats.map (fun c => count_files
          (fs.mkdirP (backupDir ++ [backupDirName fs sdMount tsDir]))
          (sdMount ++ catPath c))).sum)
        (fs.mkdirP (backupDir ++ [backupDirName fs sdMount tsDir])) 0 cats).fs.NodupKeys := by
    refine loop_nodupKeys _ _ _ cats _ 0 ?_
    show ((fs.mkdirP _).files.map (fun f => f.1)).Nodup
    rw [mkdirP_files]
    exact hnd
  by_cases h : (categoryLoop sdMount (backupDir ++ [backupDirName fs sdMount tsDir])
        ((cats.map (fun c => count_files
          (fs.mkdirP (backupDir ++ [backupDirName fs sdMount tsDir]))
          (sdMount ++ catPath c))).sum)
        (fs.mkdirP (backupDir ++ [backupDirName fs sdMount tsDir])) 0 cats).fs.unwritable.contains
      (backupDir ++ [backupDirName fs sdMount tsDir] ++ ["backup_info.json"]) = true
  · rw [if_pos h]
    exact hloop
  · rw [if_neg h]
    show ((setFile _ _ _).map (fun f => f.1)).Nodup
    exact nodupKeys_setFile _ _ _ hloop

/-- C1 (round-trip law): for every set of valid category keys and every
source tree, creating a backup and then restoring it with the same
categories onto an empty target root reproduces, for every category whose
directory exists at the source, exactly the file contents and relative
paths the source held under that category's path. Both operations report
success. The separation hypotheses say the backup root is disjoint from the
SD mount and from the target, the target is empty, and the snapshot
directory is fresh; `hdf`/`hnd` state filesystem sanity (no path is both a
directory and a file, no duplicate file entries). -/
theorem C1_backup_restore_roundtrip
    (fs : FS) (sdMount backupDir target : FsPath) (cats : List String)
    (descr tsDir tsIso : String)
    (hsd : fs.isDir sdMount = true)
    (htg : fs.isDir target = true)
    (hvalid : ∀ c ∈ cats, isValidCategory c = true)
    (hnodup : cats.Nodup)
    (hne : cats ≠ [])
    (hnd : fs.NodupKeys)
    (hdf : ∀ q ∈ fs.dirs, fs.isFile q = false)
    (hsep1 : ¬ sdMount <+: backupDir ∧ ¬ backupDir <+: sdMount)
    (hsep2 : ¬ target <+: backupDir ∧ ¬ backupDir <+: target)
    (hTfiles : ∀ f ∈ fs.files, ¬ target <+: f.1)
    (hTdirs : ∀ q ∈ fs.dirs, target <+: q → q = target)
    (hBfiles : ∀ f ∈ fs.files, ¬ (backupDir ++ [backupDirName fs sdMount tsDir]) <+: f.1)
    (hBdirs : ∀ q ∈ fs.dirs, (backupDir ++ [backupDirName fs sdMount tsDir]) <+: q → q = (backupDir ++ [backupDirName fs sdMount tsDir])) :
    (create_backup fs sdMount backupDir cats descr tsDir tsIso).result.success = true
    ∧ (restore_backup (create_backup fs sdMount backupDir cats descr tsDir tsIso).fs (create_backup fs sdMount backupDir cats descr tsDir tsIso).result.backupPath target cats).result.success = true
    ∧ ∀ c ∈ cats, fs.isDir (sdMount ++ catPath c) = true →
        ∀ rel, (restore_backup (create_backup fs sdMount backupDir cats descr tsDir tsIso).fs (create_backup fs sdMount backupDir cats descr tsDir tsIso).result.backupPath target cats).fs.findFile (target ++ catPath c ++ rel)
          = fs.findFile (sdMount ++ catPath c ++ rel) := by
  have hsepSB : ¬ sdMount <+: (backupDir ++ [backupDirName fs sdMount tsDir]) ∧ ¬ (backupDir ++ [backupDirName fs sdMount tsDir]) <+: sdMount :=
    sep_append_singleton hsep1 (backupDirName fs sdMount tsDir)
  have hsepTB : ¬ target <+: (backupDir ++ [backupDirName fs sdMount tsDir]) ∧ ¬ (backupDir ++ [backupDirName fs sdMount tsDir]) <+: target :=
    sep_append_singleton hsep2 (backupDirName fs sdMount tsDir)
  have hnotpre : ∀ x : FsPath, ¬ sdMount ++ x <+: (backupDir ++ [backupDirName fs sdMount tsDir]) := fun x =>
    sep_no_cross hsep1 (List.prefix_append sdMount x)
      (List.prefix_append backupDir [backupDirName fs sdMount tsDir])
  have hbppath : (create_backup fs sdMount backupDir cats descr tsDir tsIso).result.backupPath = (backupDir ++ [backupDirName fs sdMount tsDir]) := by
    rw [create_backup_success_result fs sdMount backupDir cats descr tsDir tsIso
      hsd hvalid hne]
  -- facts about the filesystem fed to the backup loop
  have hnd0 : ((fs.mkdirP (backupDir ++ [backupDirName fs sdMount tsDir]))).NodupKeys := by
    show (((fs.mkdirP (backupDir ++ [backupDirName fs sdMount tsDir]))).files.map (fun f => f.1)).Nodup
    rw [mkdirP_files]
    exact hnd
  have hzf0 : ∀ c ∈ cats, zoneFresh (fs.mkdirP (backupDir ++ [backupDirName fs sdMount tsDir])) ((backupDir ++ [backupDirName fs sdMount tsDir]) ++ catPath c) := by
    intro c hc p hp
    have hstrict : (backupDir ++ [backupDirName fs sdMount tsDir]) <+: p ∧ p ≠ (backupDir ++ [backupDirName fs sdMount tsDir]) := by
      refine strict_under_of_zone ?_ (catPath_ne_nil (hvalid c hc))
      exact hp
    constructor
    · show fs.findFile p = none
      refine findFile_none_of_all_ne ?_
      intro f hf hfp
      exact hBfiles f hf (hfp ▸ hstrict.1)
    · cases hdir : ((fs.mkdirP (backupDir ++ [backupDirName fs sdMount tsDir]))).isDir p with
      | false => rfl
      | true =>
        exfalso
        rcases isDir_mkdirP.mp hdir with h1 | h1
        · have h2 : p ∈ fs.dirs := by
            simpa [FS.isDir, contains_iff_mem] using h1
          exact hstrict.2 (hBdirs p h2 hstrict.1)
        · have h2 : p = (backupDir ++ [backupDirName fs sdMount tsDir]) :=
            h1.sublist.antisymm hstrict.1.sublist
          exact hstrict.2 h2
  have hsdf0 : ∀ c ∈ cats, ((fs.mkdirP (backupDir ++ [backupDirName fs sdMount tsDir]))).isDir (sdMount ++ catPath c) = true →
      ((fs.mkdirP (backupDir ++ [backupDirName fs sdMount tsDir]))).findFile (sdMount ++ catPath c) = none := by
    intro c hc hdir
    rw [isDir_mkdirP_of_not_pre (hnotpre (catPath c))] at hdir
    show fs.findFile (sdMount ++ catPath c) = none
    have hmem : (sdMount ++ catPath c) ∈ fs.dirs := by
      simpa [FS.isDir, contains_iff_mem] using hdir
    exact findFile_none_of_not_isFile (hdf _ hmem)
  have hcontent := loop_content sdMount (backupDir ++ [backupDirName fs sdMount tsDir]) ((cats.map (fun c => count_files (fs.mkdirP (backupDir ++ [backupDirName fs sdMount tsDir])) (sdMount ++ catPath c))).sum) hsepSB cats (fs.mkdirP (backupDir ++ [backupDirName fs sdMount tsDir])) 0
    hvalid hnodup hnd0 hzf0 hsdf0
  -- facts about the filesystem produced by create_backup
  have hfs1isDir : ∀ q, (create_backup fs sdMount backupDir cats descr tsDir tsIso).fs.isDir q = ((categoryLoop sdMount (backupDir ++ [backupDirName fs sdMount tsDir]) ((cats.map (fun c => count_files (fs.mkdirP (backupDir ++ [backupDirName fs sdMount tsDir])) (sdMount ++ catPath c))).sum) (fs.mkdirP (backupDir ++ [backupDirName fs sdMount tsDir])) 0 cats)).fs.isDir q :=
    create_fs1_isDir fs sdMount backupDir cats descr tsDir tsIso hsd hvalid hne
  have hfs1ff : ∀ p, p ≠ (backupDir ++ [backupDirName fs sdMount tsDir]) ++ ["backup_info.json"] →
      (create_backup fs sdMount backupDir cats descr tsDir tsIso).fs.findFile p = ((categoryLoop sdMount (backupDir ++ [backupDirName fs sdMount tsDir]) ((cats.map (fun c => count_files (fs.mkdirP (backupDir ++ [backupDirName fs sdMount tsDir])) (sdMount ++ catPath c))).sum) (fs.mkdirP (backupDir ++ [backupDirName fs sdMount tsDir])) 0 cats)).fs.findFile p :=
    create_fs1_findFile fs sdMount backupDir cats descr tsDir tsIso hsd hvalid hne
  have hfs1nodup : (create_backup fs sdMount backupDir cats descr tsDir tsIso).fs.NodupKeys :=
    create_fs1_nodup fs sdMount backupDir cats descr tsDir tsIso hsd hvalid hne hnd
  have hbp1 : (create_backup fs sdMount backupDir cats descr tsDir tsIso).fs.isDir (backupDir ++ [backupDirName fs sdMount tsDir]) = true := by
    rw [hfs1isDir]
    exact loop_isDir_mono (isDir_mkdirP_self fs (backupDir ++ [backupDirName fs sdMount tsDir]))
  have htg1 : (create_backup fs sdMount backupDir cats descr tsDir tsIso).fs.isDir target = true := by
    rw [hfs1isDir]
    exact loop_isDir_mono (isDir_mkdirP.mpr (Or.inl htg))
  -- destination-zone freshness on the restore side
  have hinfoBP : (backupDir ++ [backupDirName fs sdMount tsDir]) <+: (backupDir ++ [backupDirName fs sdMount tsDir]) ++ ["backup_info.json"] :=
    List.prefix_append _ _
  have hzfT1 : ∀ c ∈ cats, zoneFresh (create_backup fs sdMount backupDir cats descr tsDir tsIso).fs (target ++ catPath c) := by
    intro c hc p hp
    have hstrict : target <+: p ∧ p ≠ target := by
      refine strict_under_of_zone ?_ (catPath_ne_nil (hvalid c hc))
      exact hp
    have hnotBPside : ∀ y : FsPath, ¬ p <+: (backupDir ++ [backupDirName fs sdMount tsDir]) ++ y := by
      intro y hy
      have h2 : target <+: (backupDir ++ [backupDirName fs sdMount tsDir]) ++ y := hstrict.1.trans hy
      rcases prefixComparable h2 (List.prefix_append (backupDir ++ [backupDirName fs sdMount tsDir]) y) with h3 | h3
      · exact hsepTB.1 h3
      · exact hsepTB.2 h3
    constructor
    · rw [hfs1ff p (fun hx => hnotBPside ["backup_info.json"] (hx ▸ List.prefix_rfl))]
      rw [loop_findFile_frame _ _ _ _ _ _ _ ?frame]
      case frame =>
        intro c' hc' rel hrel hx
        refine hnotBPside (catPath c' ++ rel) ?_
        rw [hx, List.append_assoc]
      show fs.findFile p = none
      refine findFile_none_of_all_ne ?_
      intro f hf hfp
      exact hTfiles f hf (hfp ▸ hstrict.1)
    · rw [hfs1isDir]
      cases hdir : ((categoryLoop sdMount (backupDir ++ [backupDirName fs sdMount tsDir]) ((cats.map (fun c => count_files (fs.mkdirP (backupDir ++ [backupDirName fs sdMount tsDir])) (sdMount ++ catPath c))).sum) (fs.mkdirP (backupDir ++ [backupDirName fs sdMount tsDir])) 0 cats)).fs.isDir p with
      | false => rfl
      | true =>
        exfalso
        have hmem : p ∈ ((categoryLoop sdMount (backupDir ++ [backupDirName fs sdMount tsDir]) ((cats.map (fun c => count_files (fs.mkdirP (backupDir ++ [backupDirName fs sdMount tsDir])) (sdMount ++ catPath c))).sum) (fs.mkdirP (backupDir ++ [backupDirName fs sdMount tsDir])) 0 cats)).fs.dirs := by
          simpa [FS.isDir, contains_iff_mem] using hdir
        rcases loop_mem_dirs _ _ _ _ _ _ _ hmem with h1 | ⟨c', hc', x, hx⟩
        · rcases mem_dirs_mkdirP.mp h1 with h2 | h2
          · exact hstrict.2 (hTdirs p h2 hstrict.1)
          · rcases prefixComparable (hstrict.1.trans h2)
              (List.prefix_append backupDir [backupDirName fs sdMount tsDir]) with h3 | h3
            · exact hsep2.1 h3
            · exact hsep2.2 h3
        · refine hnotBPside (catPath c' ++ x) ?_
          rw [List.append_assoc] at hx
          exact hx
  have hsdfB1 : ∀ c ∈ cats, (create_backup fs sdMount backupDir cats descr tsDir tsIso).fs.isDir ((backupDir ++ [backupDirName fs sdMount tsDir]) ++ catPath c) = true →
      (create_backup fs sdMount backupDir cats descr tsDir tsIso).fs.findFile ((backupDir ++ [backupDirName fs sdMount tsDir]) ++ catPath c) = none := by
    intro c hc _
    have hneinfo : (backupDir ++ [backupDirName fs sdMount tsDir]) ++ catPath c ≠ (backupDir ++ [backupDirName fs sdMount tsDir]) ++ ["backup_info.json"] := by
      intro hx
      exact catZone_ne_info (hvalid c hc) []
        (by rw [List.append_nil]; exact append_left_cancel_path hx)
    rw [hfs1ff _ hneinfo]
    have h2 := (hcontent c hc).2 []
    rw [List.append_nil, List.append_nil] at h2
    rw [h2]
    by_cases hdir : ((fs.mkdirP (backupDir ++ [backupDirName fs sdMount tsDir]))).isDir (sdMount ++ catPath c) = true
    · rw [if_pos hdir]
      exact hsdf0 c hc hdir
    · rw [if_neg hdir]
  have hrcontent := loop_content (backupDir ++ [backupDirName fs sdMount tsDir]) target ((cats.map (fun c => count_files (create_backup fs sdMount backupDir cats descr tsDir tsIso).fs ((backupDir ++ [backupDirName fs sdMount tsDir]) ++ catPath c))).sum) ⟨hsepTB.2, hsepTB.1⟩ cats (create_backup fs sdMount backupDir cats descr tsDir tsIso).fs 0
    hvalid hnodup hfs1nodup hzfT1 hsdfB1
  refine ⟨?_, ?_, ?_⟩
  · rw [create_backup_success_result fs sdMount backupDir cats descr tsDir tsIso
      hsd hvalid hne]
  · rw [hbppath]
    exact restore_backup_success_result (create_backup fs sdMount backupDir cats descr tsDir tsIso).fs (backupDir ++ [backupDirName fs sdMount tsDir]) target cats hbp1 htg1 hvalid hne
  · intro c hc hdirc rel
    rw [hbppath]
    rw [restore_backup_success_fs (create_backup fs sdMount backupDir cats descr tsDir tsIso).fs (backupDir ++ [backupDirName fs sdMount tsDir]) target cats hbp1 htg1 hvalid hne]
    have h2 := (hrcontent c hc).2 rel
    rw [h2]
    have hpres : (create_backup fs sdMount backupDir cats descr tsDir tsIso).fs.isDir ((backupDir ++ [backupDirName fs sdMount tsDir]) ++ catPath c) = true := by
      rw [hfs1isDir, (hcontent c hc).1, isDir_mkdirP_of_not_pre (hnotpre (catPath c))]
      exact hdirc
    rw [if_pos hpres]
    have hneinfo : (backupDir ++ [backupDirName fs sdMount tsDir]) ++ catPath c ++ rel ≠ (backupDir ++ [backupDirName fs sdMount tsDir]) ++ ["backup_info.json"] := by
      intro hx
      rw [List.append_assoc] at hx
      exact catZone_ne_info (hvalid c hc) rel (append_left_cancel_path hx)
    rw [hfs1ff _ hneinfo]
    have h3 := (hcontent c hc).2 rel
    rw [h3, if_pos (by
      rw [isDir_mkdirP_of_not_pre (hnotpre (catPath c))]
      exact hdirc)]
    rfl

instance instDecidableNodupKeys (fs : FS) : Decidable fs.NodupKeys :=
  inferInstanceAs (Decidable ((fs.files.map (fun f : FsPath × FileData => f.1)).Nodup))

/-- Witness for C1: backing up and restoring the single category "roms"
from a concrete one-file SD card reproduces the file under the target. -/
theorem C1_backup_restore_roundtrip_witness :
    (create_backup ⟨[(["sd", "Roms", "g.gba"], FileData.bytes "G")],
      [[], ["sd"], ["sd", "Roms"], ["bk"], ["tg"]], [], []⟩ ["sd"] ["bk"] ["roms"] "d" "TS" "ISO").result.success = true
    ∧ (restore_backup (create_backup ⟨[(["sd", "Roms", "g.gba"], FileData.bytes "G")],
      [[], ["sd"], ["sd", "Roms"], ["bk"], ["tg"]], [], []⟩ ["sd"] ["bk"] ["roms"] "d" "TS" "ISO").fs (create_backup ⟨[(["sd", "Roms", "g.gba"], FileData.bytes "G")],
      [[], ["sd"], ["sd", "Roms"], ["bk"], ["tg"]], [], []⟩ ["sd"] ["bk"] ["roms"] "d" "TS" "ISO").result.backupPath ["tg"] ["roms"]).result.success = true
    ∧ (restore_backup (create_backup ⟨[(["sd", "Roms", "g.gba"], FileData.bytes "G")],
      [[], ["sd"], ["sd", "Roms"], ["bk"], ["tg"]], [], []⟩ ["sd"] ["bk"] ["roms"] "d" "TS" "ISO").fs (create_backup ⟨[(["sd", "Roms", "g.gba"], FileData.bytes "G")],
      [[], ["sd"], ["sd", "Roms"], ["bk"], ["tg"]], [], []⟩ ["sd"] ["bk"] ["roms"] "d" "TS" "ISO").result.backupPath ["tg"] ["roms"]).fs.findFile (["tg"] ++ catPath "roms" ++ ["g.gba"])
      = FS.findFile ⟨[(["sd", "Roms", "g.gba"], FileData.bytes "G")],
      [[], ["sd"], ["sd", "Roms"], ["bk"], ["tg"]], [], []⟩ (["sd"] ++ catPath "roms" ++ ["g.gba"]) :=
  ⟨(C1_backup_restore_roundtrip ⟨[(["sd", "Roms", "g.gba"], FileData.bytes "G")],
      [[], ["sd"], ["sd", "Roms"], ["bk"], ["tg"]], [], []⟩ ["sd"] ["bk"] ["tg"] ["roms"] "d" "TS" "ISO"
      (by decide) (by decide) (by decide) (by decide) (by decide) (by decide) (by decide)
      (by decide) (by decide) (by decide) (by decide) (by decide) (by decide)).1,
    (C1_backup_restore_roundtrip ⟨[(["sd", "Roms", "g.gba"], FileData.bytes "G")],
      [[], ["sd"], ["sd", "Roms"], ["bk"], ["tg"]], [], []⟩ ["sd"] ["bk"] ["tg"] ["roms"] "d" "TS" "ISO"
      (by decide) (by decide) (by decide) (by decide) (by decide) (by decide) (by decide)
      (by decide) (by decide) (by decide) (by decide) (by decide) (by decide)).2.1,
    (C1_backup_restore_roundtrip ⟨[(["sd", "Roms", "g.gba"], FileData.bytes "G")],
      [[], ["sd"], ["sd", "Roms"], ["bk"], ["tg"]], [], []⟩ ["sd"] ["bk"] ["tg"] ["roms"] "d" "TS" "ISO"
      (by decide) (by decide) (by decide) (by decide) (by decide) (by decide) (by decide)
      (by decide) (by decide) (by decide) (by decide) (by decide) (by decide)).2.2
      "roms" (by decide) (by decide) ["g.gba"]⟩

end Onion
